import Mathlib

/-!
Map persistence layer and province builder.

Shallow embedding of `MapProject.cpp` (save / load of the shape detection
info) and of `ProvinceMapBuilder.cpp` (`createProvinceList`).

Conventions of the embedding:

* `uint32_t` values are natural numbers below `2^32`; every arithmetic
  operation the source performs on them is followed by `u32` (reduction
  modulo `2^32`).  `size_t` is 64 bits wide and never wraps on the values that
  occur (`label_matrix_size * sizeof(uint32_t)` is below `2^34`).
* Raw buffers (`uint32_t*`, `unsigned char*`) are `Option (List Nat)`: `none`
  is the null pointer and the list holds the allocated elements.  An access
  outside the allocated elements, or through a null pointer, is undefined
  behaviour and ends the run with `Outcome.undefined`.
* The files touched by one call (the project directory, the two artifacts, the
  source image) form the `FileSystem` part of the machine state, together with
  the value `errno` holds when the source reads it.
* Messages handed to the logger are collected in `Machine.log`.
* Library calls follow the C++ standard: `std::filesystem::create_directory(p)`
  without an `error_code` throws when the directory cannot be created,
  `std::filesystem::exists(p, ec)` clears `ec` once the status of `p` is known,
  `std::getline` delivers the text up to the next line feed.  Memory allocation
  is taken to succeed.
-/

namespace MapNormalizer

/-! ## Machine integers -/

/-- Reduction of a natural number to the range of `uint32_t`. -/
def u32 (n : Nat) : Nat := n % 4294967296

/-- The four bytes of a `uint32_t` in memory order (little-endian host). -/
def u32Bytes (n : Nat) : List Nat :=
  [n % 256, n / 256 % 256, n / 65536 % 256, n / 16777216 % 256]

/-- The `uint32_t` whose object representation is the given four bytes
(little-endian host).  Missing bytes count as zero. -/
def u32OfBytes (bs : List Nat) : Nat :=
  bs.getD 0 0 + 256 * bs.getD 1 0 + 65536 * bs.getD 2 0 + 16777216 * bs.getD 3 0

/-- Object representation of a `uint32_t` array: what
`out.write(reinterpret_cast<const char*>(label_matrix), n * sizeof(uint32_t))`
puts on the stream. -/
def labelsToBytes : List Nat → List Nat
  | [] => []
  | l :: ls => u32Bytes l ++ labelsToBytes ls

/-- Reading `n` consecutive `uint32_t` values out of a byte sequence. -/
def labelsOfBytes : Nat → List Nat → List Nat
  | 0, _ => []
  | n + 1, bs => u32OfBytes (bs.take 4) :: labelsOfBytes n (bs.drop 4)

/-! ## Data model (`Types.h`, `BitMap.h`) -/

/-- Three 8-bit channels. -/
structure Color where
  r : Nat
  g : Nat
  b : Nat
  deriving DecidableEq, Repr

/-- Province type enumeration.  Only the enumerator `UNKNOWN` occurs in the
sources at hand; any other enumerator is kept by its integer value. -/
inductive ProvinceType where
  | UNKNOWN
  | other (value : Nat)
  deriving DecidableEq, Repr

/-- Terrain enumeration.  Only the enumerator `UNKNOWN` occurs in the sources at
hand; any other enumerator is kept by its integer value. -/
inductive Terrain where
  | UNKNOWN
  | other (value : Nat)
  deriving DecidableEq, Repr

/-- One province record, in the field order of the aggregate initialiser in
`createProvinceList`. -/
structure Province where
  id : Nat
  unique_color : Color
  type : ProvinceType
  coastal : Bool
  terrain : Terrain
  continent : Nat
  deriving DecidableEq, Repr

/-- A detected shape.  `createProvinceList` reads nothing but its colour. -/
structure Polygon where
  color : Color
  deriving DecidableEq, Repr

/-- The part of a bitmap the persistence layer reads: `info_header.width` and
`info_header.height`. -/
structure BitMap where
  width : Nat
  height : Nat
  deriving DecidableEq, Repr

/-- The aggregate `m_shape_detection_info`. -/
structure ShapeDetectionInfo where
  provinces : List Province
  image : Option BitMap
  label_matrix : Option (List Nat)
  label_matrix_size : Nat
  graphics_data : Option (List Nat)
  deriving DecidableEq, Repr

/-! ## Environment -/

/-- Values a `std::error_code` takes in this code. -/
inductive ErrorCode where
  /-- A default constructed or cleared code. -/
  | cleared
  /-- The code `std::error_code(errno, std::generic_category())`. -/
  | generic (errno : Nat)
  /-- The code `std::make_error_code(std::errc::no_such_file_or_directory)`. -/
  | no_such_file_or_directory
  /-- The code `std::make_error_code(std::errc::io_error)`. -/
  | io_error
  /-- The code `std::make_error_code(std::errc::bad_message)`. -/
  | bad_message
  deriving DecidableEq, Repr

/-- Messages handed to `writeDebug`, `writeWarning` and `writeError`. -/
inductive LogMsg where
  | creating_directory
  | nothing_to_write
  | source_image_missing
  | image_read_failed
  | file_missing_shapedata
  | file_missing_provincedata
  | open_failed_shapedata
  | open_failed_provincedata
  | header_read_failed
  | label_matrix_read_failed
  /-- The text "Failed to parse line #n: 'line'". -/
  | parse_failed (line_num : Nat) (line : List Char)
  | loaded_provinces (count : Nat)
  /-- The text "Label matrix has label l at position (x,y), ... [1,n]". -/
  | label_out_of_range (label x y count : Nat)
  deriving DecidableEq, Repr

/-- The files one call of `save` or `load` can touch. -/
structure FileSystem where
  /-- Result of `std::filesystem::exists(path)` for the project directory. -/
  root_exists : Bool
  /-- Whether `std::filesystem::create_directory(path)` is able to create it. -/
  root_creatable : Bool
  /-- Bytes of `path / SHAPEDATA_FILENAME`, when that file exists. -/
  shapedata : Option (List Nat)
  /-- Whether an `std::ifstream` on the label file opens. -/
  shapedata_readable : Bool
  /-- Whether an `std::ofstream` on the label file opens. -/
  shapedata_writable : Bool
  /-- Characters of `path / PROVINCEDATA_FILENAME`, when that file exists. -/
  provincedata : Option (List Char)
  /-- Whether an `std::ifstream` on the province file opens. -/
  provincedata_readable : Bool
  /-- Whether an `std::ofstream` on the province file opens. -/
  provincedata_writable : Bool
  /-- The source image under the inputs root: `none` when the file is absent,
  `some none` when it is there and `readBMP` returns a null pointer. -/
  input_provincemap : Option (Option BitMap)
  /-- The value of `errno` when the source reads it. -/
  errno : Nat
  /-- What a freshly allocated, uninitialised byte buffer holds. -/
  uninitialised : List Nat
  deriving DecidableEq, Repr

/-- Everything a member function of `MapProject` reads or changes. -/
structure Machine where
  info : ShapeDetectionInfo
  ec : ErrorCode
  fs : FileSystem
  log : List LogMsg
  deriving DecidableEq, Repr

/-- How a call ends. -/
inductive Outcome (α : Type) where
  /-- Normal return. -/
  | returned (a : α)
  /-- A `std::filesystem::filesystem_error` leaves the function. -/
  | threw
  /-- Undefined behaviour (null dereference, access outside a buffer). -/
  | undefined
  deriving DecidableEq, Repr

/-- Writer and parser of one province line.  `operator<<` for `Province` and
`parseValues<';'>` live in headers that are not among the sources, so the pair
is a parameter of `saveProvinceData` and `loadProvinceData`. -/
structure ProvinceFormat where
  /-- The characters `out << province` produces. -/
  write : Province → List Char
  /-- The record `parseValues<';'>` fills in, `none` when it returns false. -/
  parseValues : List Char → Option Province

/-- Appending a message to the log. -/
def Machine.say (m : Machine) (msg : LogMsg) : Machine :=
  { m with log := m.log ++ [msg] }

/-! ## `ProvinceMapBuilder.cpp` -/

/-- Placeholder classification: always `UNKNOWN`. -/
def getProvinceType (_color : Color) : ProvinceType := ProvinceType.UNKNOWN

/-- Placeholder classification: never coastal. -/
def isCoastal (_shape : Polygon) : Bool := false

/-- Placeholder classification: always `UNKNOWN`. -/
def getTerrainType (_color : Color) : Terrain := Terrain.UNKNOWN

/-- Placeholder classification: always continent 1. -/
def getContinent (_color : Color) : Nat := 1

/-- The loop of `createProvinceList`, started at index `i` with the shapes from
index `i` on still to visit.  `generateUniqueColor` comes from a header that is
not among the sources and is a parameter. -/
def createProvinceListFrom (generateUniqueColor : Nat → Color) :
    Nat → List Polygon → List Province
  | _, [] => []
  | i, shape :: rest =>
    { id := i
      unique_color := generateUniqueColor i
      type := getProvinceType shape.color
      coastal := isCoastal shape
      terrain := getTerrainType shape.color
      continent := getContinent shape.color } ::
      createProvinceListFrom generateUniqueColor (i + 1) rest

/-- The function `createProvinceList`. -/
def createProvinceList (generateUniqueColor : Nat → Color) (shape_list : List Polygon) :
    List Province :=
  createProvinceListFrom generateUniqueColor 0 shape_list

/-! ## `MapProject::save` -/

/-- The function `MapProject::saveShapeLabels`.  `SHAPEDATA_MAGIC` comes from
`Constants.h`, which is not among the sources, and is a parameter.
`writeData(out, width, height)` puts the object representation of its two
`uint32_t` arguments on the stream. -/
def saveShapeLabels (SHAPEDATA_MAGIC : List Nat) (m : Machine) : Outcome (Bool × Machine) :=
  if m.fs.shapedata_writable then
    match m.info.image with
    | none => Outcome.undefined
    | some image =>
      let labels : Option (List Nat) :=
        match m.info.label_matrix with
        | none => if m.info.label_matrix_size = 0 then some [] else none
        | some lm =>
          if m.info.label_matrix_size ≤ lm.length then
            some (lm.take m.info.label_matrix_size)
          else none
      match labels with
      | none => Outcome.undefined
      | some ls =>
        let bytes := SHAPEDATA_MAGIC ++ u32Bytes image.width ++ u32Bytes image.height ++
          labelsToBytes ls ++ [0]
        Outcome.returned (true, { m with fs := { m.fs with shapedata := some bytes } })
  else
    Outcome.returned
      (false, ({ m with ec := ErrorCode.generic m.fs.errno }).say LogMsg.open_failed_shapedata)

/-- What the loop of `saveProvinceData` puts on the stream: every province
followed by `std::endl`. -/
def provinceLines (fmt : ProvinceFormat) : List Province → List Char
  | [] => []
  | p :: ps => fmt.write p ++ [Char.ofNat 10] ++ provinceLines fmt ps

/-- The function `MapProject::saveProvinceData`. -/
def saveProvinceData (fmt : ProvinceFormat) (m : Machine) : Outcome (Bool × Machine) :=
  if m.fs.provincedata_writable then
    Outcome.returned
      (true, { m with fs := { m.fs with provincedata := some (provinceLines fmt m.info.provinces) } })
  else
    Outcome.returned
      (false, ({ m with ec := ErrorCode.generic m.fs.errno }).say LogMsg.open_failed_provincedata)

/-- Sequencing of two calls joined by the short-circuit `a && b`. -/
def andThen (a : Outcome (Bool × Machine)) (b : Machine → Outcome (Bool × Machine)) :
    Outcome (Bool × Machine) :=
  match a with
  | Outcome.returned (true, m) => b m
  | Outcome.returned (false, m) => Outcome.returned (false, m)
  | Outcome.threw => Outcome.threw
  | Outcome.undefined => Outcome.undefined

/-- The function `MapProject::save`.  The overload of
`std::filesystem::create_directory` without an `error_code` argument throws
when the directory cannot be created. -/
def save (SHAPEDATA_MAGIC : List Nat) (fmt : ProvinceFormat) (m : Machine) :
    Outcome (Bool × Machine) :=
  let created : Option Machine :=
    if m.fs.root_exists then some m
    else if m.fs.root_creatable then
      some ({ m with fs := { m.fs with root_exists := true } }.say LogMsg.creating_directory)
    else none
  match created with
  | none => Outcome.threw
  | some m1 =>
    if m1.info.provinces.isEmpty then
      Outcome.returned (true, m1.say LogMsg.nothing_to_write)
    else
      andThen (saveShapeLabels SHAPEDATA_MAGIC m1) (saveProvinceData fmt)

/-! ## `MapProject::load` -/

/-- Modelled from the spec: `safeRead` (Util.h, not among the sources) reads the
requested number of bytes from the stream and reports failure when fewer bytes
are available.  The result is the bytes read and the rest of the stream. -/
def safeRead (n : Nat) (stream : List Nat) : Option (List Nat × List Nat) :=
  if stream.length < n then none else some (stream.take n, stream.drop n)

/-- The call `safeRead(in, &magic, &width, &height)`: four bytes of magic, then
two `uint32_t`.  The result is `(magic, width, height, rest of the stream)`. -/
def readHeader (stream : List Nat) : Option (List Nat × Nat × Nat × List Nat) :=
  match safeRead 4 stream with
  | none => none
  | some (magic, s1) =>
    match safeRead 4 s1 with
    | none => none
    | some (w, s2) =>
      match safeRead 4 s2 with
      | none => none
      | some (h, s3) => some (magic, u32OfBytes w, u32OfBytes h, s3)

/-- The function `MapProject::loadShapeLabels`. -/
def loadShapeLabels (m : Machine) : Outcome (Bool × Machine) :=
  match m.fs.shapedata with
  | none => Outcome.returned (false, m.say LogMsg.file_missing_shapedata)
  | some bytes =>
    if m.fs.shapedata_readable then
      match readHeader bytes with
      | none =>
        Outcome.returned
          (false, ({ m with ec := ErrorCode.generic m.fs.errno }).say LogMsg.header_read_failed)
      | some (_magic, width, height, data) =>
        let label_matrix_size := u32 (width * height)
        match safeRead (label_matrix_size * 4) data with
        | none =>
          Outcome.returned
            (false,
              ({ m with
                  info := { m.info with
                    label_matrix := none, label_matrix_size := label_matrix_size }
                  ec := ErrorCode.generic m.fs.errno }).say LogMsg.label_matrix_read_failed)
        | some (raw, _) =>
          Outcome.returned
            (true,
              { m with
                info := { m.info with
                  label_matrix := some (labelsOfBytes label_matrix_size raw)
                  label_matrix_size := label_matrix_size } })
    else
      Outcome.returned
        (false, ({ m with ec := ErrorCode.generic m.fs.errno }).say LogMsg.open_failed_shapedata)

/-- The lines successive calls of `std::getline` deliver on a stream holding the
given characters: the text is cut at every line feed, and no line follows the
last line feed when nothing stands behind it. -/
def getlines : List Char → List (List Char)
  | [] => []
  | c :: cs =>
    if c = Char.ofNat 10 then [] :: getlines cs
    else
      match getlines cs with
      | [] => [[c]]
      | l :: ls => (c :: l) :: ls

/-- The `for` loop of `loadProvinceData` over the lines still to come, with the
current value of `line_num` (a `uint32_t`, incremented also after `continue`). -/
def loadProvinceLoop (fmt : ProvinceFormat) : Nat → List (List Char) → Machine → Bool × Machine
  | _, [], m => (true, m)
  | line_num, line :: rest, m =>
    if line.isEmpty then loadProvinceLoop fmt (u32 (line_num + 1)) rest m
    else
      match fmt.parseValues line with
      | none =>
        (false, ({ m with ec := ErrorCode.bad_message }).say (LogMsg.parse_failed line_num line))
      | some prov =>
        loadProvinceLoop fmt (u32 (line_num + 1)) rest
          { m with info := { m.info with provinces := m.info.provinces ++ [prov] } }

/-- The function `MapProject::loadProvinceData`.  `std::filesystem::exists(path, ec)`
clears `ec` once the status of the file is known. -/
def loadProvinceData (fmt : ProvinceFormat) (m : Machine) : Outcome (Bool × Machine) :=
  let m0 : Machine := { m with ec := ErrorCode.cleared }
  match m.fs.provincedata with
  | none => Outcome.returned (false, m0.say LogMsg.file_missing_provincedata)
  | some content =>
    if m.fs.provincedata_readable then
      let m1 : Machine := { m0 with info := { m0.info with provinces := [] } }
      match loadProvinceLoop fmt 1 (getlines content) m1 with
      | (true, m2) =>
        Outcome.returned (true, m2.say (LogMsg.loaded_provinces m2.info.provinces.length))
      | (false, m2) => Outcome.returned (false, m2)
    else
      Outcome.returned
        (false, ({ m0 with ec := ErrorCode.generic m.fs.errno }).say LogMsg.open_failed_provincedata)

/-- Modelled from the spec: `xyToIndex` is declared in `ShapeFinder.h` with result
type `uint32_t`; its body is not among the sources.  Row-major linear index
`y * width + x`, computed in `uint32_t`. -/
def xyToIndex (w x y : Nat) : Nat := u32 (x + u32 (y * w))

/-- The pixels in the order the two nested loops of `load` visit them: `x` in the
outer loop, `y` in the inner one. -/
def pixelOrder (width height : Nat) : List (Nat × Nat) :=
  ((List.range width).map fun x => (List.range height).map fun y => (x, y)).flatten

/-- The assignment `graphics_data[i] = v`. -/
def storeByte (i v : Nat) (buf : List Nat) : Option (List Nat) :=
  if i < buf.length then some (buf.set i v) else none

/-- The three assignments at `gindex`, `gindex + 1` and `gindex + 2`. -/
def storeColor (gindex : Nat) (c : Color) (buf : List Nat) : Option (List Nat) :=
  match storeByte gindex c.r buf with
  | none => none
  | some b1 =>
    match storeByte (u32 (gindex + 1)) c.g b1 with
    | none => none
    | some b2 => storeByte (u32 (gindex + 2)) c.b b2

/-- The body of the inner loop of `load` at pixel `p = (x, y)`, acting on the
graphics buffer and the log; `none` is an access outside a buffer. -/
def rebuildPixel (width : Nat) (lm : List Nat) (provinces : List Province)
    (st : List Nat × List LogMsg) (p : Nat × Nat) : Option (List Nat × List LogMsg) :=
  let lindex := xyToIndex width p.1 p.2
  let gindex := xyToIndex (u32 (width * 3)) (u32 (p.1 * 3)) p.2
  match lm[lindex]? with
  | none => none
  | some label =>
    if label = 0 ∨ label > provinces.length then
      some (st.1, st.2 ++ [LogMsg.label_out_of_range label p.1 p.2 provinces.length])
    else
      match provinces[label - 1]? with
      | none => none
      | some province =>
        match storeColor gindex province.unique_color st.1 with
        | none => none
        | some buf => some (buf, st.2)

/-- The content of `new unsigned char[n]`. -/
def freshBuffer (fs : FileSystem) (n : Nat) : List Nat :=
  (List.range n).map fun i => fs.uninitialised.getD i 0

/-- The part of `load` after both files are read: allocation of the graphics
buffer and the two nested loops. -/
def rebuildGraphics (m : Machine) : Outcome (Bool × Machine) :=
  match m.info.image, m.info.label_matrix with
  | some image, some lm =>
    let data_size := u32 (u32 (image.width * image.height) * 3)
    match (pixelOrder image.width image.height).foldlM
        (rebuildPixel image.width lm m.info.provinces) (freshBuffer m.fs data_size, m.log) with
    | none => Outcome.undefined
    | some (buf, log) =>
      Outcome.returned
        (true, { m with info := { m.info with graphics_data := some buf }, log := log })
  | _, _ => Outcome.undefined

/-- The function `MapProject::load`. -/
def load (fmt : ProvinceFormat) (m : Machine) : Outcome (Bool × Machine) :=
  if m.fs.root_exists then
    match m.fs.input_provincemap with
    | none =>
      Outcome.returned
        (false,
          ({ m with ec := ErrorCode.no_such_file_or_directory }).say LogMsg.source_image_missing)
    | some none =>
      Outcome.returned
        (false,
          ({ m with info := { m.info with image := none }, ec := ErrorCode.io_error }).say
            LogMsg.image_read_failed)
    | some (some image) =>
      let m1 : Machine := { m with info := { m.info with image := some image } }
      match andThen (loadProvinceData fmt m1) loadShapeLabels with
      | Outcome.returned (true, m2) => rebuildGraphics m2
      | other => other
  else
    Outcome.returned (false, m)

/-! ## A province line format for examples -/

/-- Decimal digits of a natural number. -/
def decimal (n : Nat) : List Char := Nat.toDigits 10 n

/-- Value of a digit string read so far as `acc`. -/
def parseDecimalFrom : Nat → List Char → Option Nat
  | acc, [] => some acc
  | acc, c :: cs =>
    if 48 ≤ c.toNat ∧ c.toNat ≤ 57 then parseDecimalFrom (acc * 10 + (c.toNat - 48)) cs
    else none

/-- Value of a non-empty digit string. -/
def parseDecimal (cs : List Char) : Option Nat :=
  if cs.isEmpty then none else parseDecimalFrom 0 cs

/-- Fields of a line cut at every separator. -/
def splitFields (sep : Char) : List Char → List (List Char)
  | [] => [[]]
  | c :: cs =>
    if c = sep then [] :: splitFields sep cs
    else
      match splitFields sep cs with
      | [] => [[c]]
      | f :: fs => (c :: f) :: fs

/-- Token of a province type: `UNKNOWN`, or the integer value of the enumerator. -/
def provinceTypeToken : ProvinceType → List Char
  | ProvinceType.UNKNOWN => "UNKNOWN".toList
  | ProvinceType.other v => decimal v

/-- Reading a province type token. -/
def parseProvinceType (cs : List Char) : Option ProvinceType :=
  if cs = "UNKNOWN".toList then some ProvinceType.UNKNOWN
  else (parseDecimal cs).map ProvinceType.other

/-- Token of a terrain: `UNKNOWN`, or the integer value of the enumerator. -/
def terrainToken : Terrain → List Char
  | Terrain.UNKNOWN => "UNKNOWN".toList
  | Terrain.other v => decimal v

/-- Reading a terrain token. -/
def parseTerrain (cs : List Char) : Option Terrain :=
  if cs = "UNKNOWN".toList then some Terrain.UNKNOWN
  else (parseDecimal cs).map Terrain.other

/-- Reading the coastal flag. -/
def parseFlag (cs : List Char) : Option Bool :=
  if cs = "true".toList then some true
  else if cs = "false".toList then some false
  else none

/-- Reading a colour channel: a decimal number up to 255. -/
def parseChannel (cs : List Char) : Option Nat :=
  match parseDecimal cs with
  | some v => if v ≤ 255 then some v else none
  | none => none

/-- Modelled from the spec: `operator<<` for `Province` (not among the sources).
One record `id;R;G;B;type;coastal;terrain;continent`, numbers in decimal, the
coastal flag as `true` or `false`. -/
def csvWrite (p : Province) : List Char :=
  decimal p.id ++ [';'] ++ decimal p.unique_color.r ++ [';'] ++ decimal p.unique_color.g ++
    [';'] ++ decimal p.unique_color.b ++ [';'] ++ provinceTypeToken p.type ++ [';'] ++
    (if p.coastal then "true".toList else "false".toList) ++ [';'] ++ terrainToken p.terrain ++
    [';'] ++ decimal p.continent

/-- Modelled from the spec: `parseValues<';'>` (Util.h, not among the sources) on
one line: exactly the eight fields `id;R;G;B;type;coastal;terrain;continent`,
each of which has to parse. -/
def csvParse (line : List Char) : Option Province :=
  match splitFields ';' line with
  | [id, r, g, b, ty, coastal, terrain, continent] =>
    match parseDecimal id, parseChannel r, parseChannel g, parseChannel b,
      parseProvinceType ty, parseFlag coastal, parseTerrain terrain, parseDecimal continent with
    | some id, some r, some g, some b, some ty, some coastal, some terrain, some continent =>
      some
        { id := id
          unique_color := { r := r, g := g, b := b }
          type := ty
          coastal := coastal
          terrain := terrain
          continent := continent }
    | _, _, _, _, _, _, _, _ => none
  | _ => none

/-- The line format of the spec as a `ProvinceFormat`. -/
def csvFormat : ProvinceFormat where
  write := csvWrite
  parseValues := csvParse

/-! ## Layout of the label file -/

/-- Width declared in the header of a label file: the `uint32_t` at offset 4. -/
def declaredWidth (bytes : List Nat) : Nat := u32OfBytes ((bytes.drop 4).take 4)

/-- Height declared in the header of a label file: the `uint32_t` at offset 8. -/
def declaredHeight (bytes : List Nat) : Nat := u32OfBytes ((bytes.drop 8).take 4)

/-- A machine whose project directory holds the given label file and nothing
else; the project state is empty. -/
def labelFileMachine (bytes : List Nat) : Machine where
  info :=
    { provinces := [], image := none, label_matrix := none, label_matrix_size := 0,
      graphics_data := none }
  ec := ErrorCode.cleared
  fs :=
    { root_exists := true, root_creatable := true, shapedata := some bytes,
      shapedata_readable := true, shapedata_writable := true, provincedata := none,
      provincedata_readable := true, provincedata_writable := true,
      input_provincemap := none, errno := 5, uninitialised := [] }
  log := []

/-- A complete label file for one pixel with label 7, followed by three more
bytes. -/
def overlongLabelFile : List Nat :=
  [83, 72, 80, 68] ++ [1, 0, 0, 0] ++ [1, 0, 0, 0] ++ [7, 0, 0, 0] ++ [0] ++ [9, 9, 9]

/-- A label file that declares width `2^31 + 1` and height 2 and holds two
labels. -/
def overflowLabelFile : List Nat :=
  [83, 72, 80, 68] ++ [1, 0, 0, 128] ++ [2, 0, 0, 0] ++ [7, 0, 0, 0, 8, 0, 0, 0]

/-- A machine with an empty project state whose project directory holds the
given label file and province file, next to the given source image. -/
def projectMachine (image : BitMap) (labels : List Nat) (provinces : List Char) : Machine where
  info :=
    { provinces := [], image := none, label_matrix := none, label_matrix_size := 0,
      graphics_data := none }
  ec := ErrorCode.cleared
  fs :=
    { root_exists := true, root_creatable := true, shapedata := some labels,
      shapedata_readable := true, shapedata_writable := true, provincedata := some provinces,
      provincedata_readable := true, provincedata_writable := true,
      input_provincemap := some (some image), errno := 5,
      uninitialised := [201, 202, 203, 204, 205, 206, 207, 208, 209, 210, 211, 212] }
  log := []

/-- A province file with one well-formed line. -/
def oneProvinceFile : List Char := "0;10;20;30;UNKNOWN;false;UNKNOWN;1\n".toList

/-- A complete label file for an image of one by one pixel, with label 1. -/
def onePixelLabelFile : List Nat :=
  [83, 72, 80, 68] ++ [1, 0, 0, 0] ++ [1, 0, 0, 0] ++ [1, 0, 0, 0] ++ [0]

/-- A complete label file for an image of two by two pixels, all with label 1. -/
def fourPixelLabelFile : List Nat :=
  [83, 72, 80, 68] ++ [2, 0, 0, 0] ++ [2, 0, 0, 0] ++
    [1, 0, 0, 0, 1, 0, 0, 0, 1, 0, 0, 0, 1, 0, 0, 0] ++ [0]

/-! ## Auxiliary notions for the statements -/

/-- The machine with the given provinces appended to its province list. -/
def Machine.addProvinces (m : Machine) (ps : List Province) : Machine :=
  { m with info := { m.info with provinces := m.info.provinces ++ ps } }

/-- The provinces the non-empty lines among the given ones parse to. -/
def parsedProvinces (fmt : ProvinceFormat) : List (List Char) → List Province
  | [] => []
  | line :: rest =>
    if line.isEmpty then parsedProvinces fmt rest
    else
      match fmt.parseValues line with
      | none => parsedProvinces fmt rest
      | some p => p :: parsedProvinces fmt rest

/-- The colour `load` stores for a pixel with the given label: that of the
province at position `label - 1` when the label lies in `[1, N]`, none when the
pixel is skipped. -/
def labelColor (provinces : List Province) (label : Nat) : Option Color :=
  if label = 0 ∨ label > provinces.length then none
  else (provinces[label - 1]?).map Province.unique_color

/-- Channel `k` of a colour in the order red, green, blue. -/
def Color.channel (c : Color) (k : Nat) : Nat :=
  if k = 0 then c.r else if k = 1 then c.g else c.b

/-- A province file whose third line lacks fields; the second line is blank. -/
def badProvinceFile : List Char :=
  "0;10;20;30;UNKNOWN;false;UNKNOWN;1\n\n3;10;20\n1;40;50;60;UNKNOWN;false;UNKNOWN;1\n".toList

/-- A complete label file for an image of two by one pixels, with labels 1
and 5. -/
def twoPixelLabelFile : List Nat :=
  [83, 72, 80, 68] ++ [2, 0, 0, 0] ++ [1, 0, 0, 0] ++ [1, 0, 0, 0, 5, 0, 0, 0] ++ [0]

/-- The machine `projectMachine` with `twoPixelLabelFile` and `oneProvinceFile`
turns into once both files are read. -/
def twoPixelLoaded : Machine where
  info :=
    { provinces :=
        [{ id := 0, unique_color := { r := 10, g := 20, b := 30 }, type := ProvinceType.UNKNOWN,
           coastal := false, terrain := Terrain.UNKNOWN, continent := 1 }]
      image := some { width := 2, height := 1 }
      label_matrix := some [1, 5]
      label_matrix_size := 2
      graphics_data := none }
  ec := ErrorCode.cleared
  fs := (projectMachine { width := 2, height := 1 } twoPixelLabelFile oneProvinceFile).fs
  log := [LogMsg.loaded_provinces 1]

/-- A machine whose state holds an image and a label matrix but no province. -/
def noProvincesMachine : Machine where
  info :=
    { provinces := [], image := some { width := 2, height := 1 }, label_matrix := some [0, 0],
      label_matrix_size := 2, graphics_data := none }
  ec := ErrorCode.cleared
  fs :=
    { root_exists := true, root_creatable := true, shapedata := none,
      shapedata_readable := true, shapedata_writable := true, provincedata := none,
      provincedata_readable := true, provincedata_writable := true,
      input_provincemap := some (some { width := 2, height := 1 }), errno := 5,
      uninitialised := [] }
  log := []

/-! ## Example inputs -/

/-- A file system with an existing, empty project directory in which every file
can be opened, and a source image of two by one pixels. -/
def exampleFs : FileSystem where
  root_exists := true
  root_creatable := true
  shapedata := none
  shapedata_readable := true
  shapedata_writable := true
  provincedata := none
  provincedata_readable := true
  provincedata_writable := true
  input_provincemap := some (some { width := 2, height := 1 })
  errno := 5
  uninitialised := [201, 202, 203, 204, 205, 206]

/-- A project state without any data. -/
def emptyInfo : ShapeDetectionInfo where
  provinces := []
  image := none
  label_matrix := none
  label_matrix_size := 0
  graphics_data := none

/-- Two provinces, as `createProvinceList` numbers them. -/
def exampleProvinces : List Province :=
  [{ id := 0, unique_color := { r := 10, g := 20, b := 30 }, type := ProvinceType.UNKNOWN,
     coastal := false, terrain := Terrain.UNKNOWN, continent := 1 },
   { id := 1, unique_color := { r := 40, g := 50, b := 60 }, type := ProvinceType.UNKNOWN,
     coastal := false, terrain := Terrain.UNKNOWN, continent := 1 }]

/-- A project state for an image of two by one pixels with two provinces. -/
def exampleInfo : ShapeDetectionInfo where
  provinces := exampleProvinces
  image := some { width := 2, height := 1 }
  label_matrix := some [2, 1]
  label_matrix_size := 2
  graphics_data := none

/-- The magic marker used in the examples. -/
def exampleMagic : List Nat := [83, 72, 80, 68]

/-- A machine about to save `exampleInfo`. -/
def exampleMachine : Machine where
  info := exampleInfo
  ec := ErrorCode.cleared
  fs := exampleFs
  log := []

/-- A machine with no provinces whose project directory is missing and cannot
be created. -/
def noDirectoryMachine : Machine where
  info := emptyInfo
  ec := ErrorCode.cleared
  fs := { exampleFs with root_exists := false, root_creatable := false }
  log := []

/-- A machine with no provinces and an existing project directory. -/
def emptyMachine : Machine where
  info := emptyInfo
  ec := ErrorCode.cleared
  fs := exampleFs
  log := []

/-- The machine `exampleMachine` with the project directory missing and not
creatable. -/
def uncreatableMachine : Machine where
  info := exampleInfo
  ec := ErrorCode.cleared
  fs := { exampleFs with root_exists := false, root_creatable := false }
  log := []

/-- A machine that holds two provinces from an earlier load and is about to read
`badProvinceFile`. -/
def reloadMachine : Machine where
  info := exampleInfo
  ec := ErrorCode.cleared
  fs := (projectMachine { width := 2, height := 1 } twoPixelLabelFile badProvinceFile).fs
  log := []

/-- A machine whose project directory exists and whose source image is absent
from the inputs root. -/
def noSourceImageMachine : Machine where
  info := exampleInfo
  ec := ErrorCode.cleared
  fs :=
    { (projectMachine { width := 2, height := 1 } twoPixelLabelFile oneProvinceFile).fs with
      input_provincemap := none }
  log := []

/-! ## Theorems -/

/-! ### Province builder -/

theorem createProvinceListFrom_length (gen : Nat → Color) (shapes : List Polygon) (i : Nat) :
    (createProvinceListFrom gen i shapes).length = shapes.length := by
  induction shapes generalizing i with
  | nil => rfl
  | cons s rest ih => simp [createProvinceListFrom, ih]

theorem createProvinceListFrom_ids (gen : Nat → Color) (shapes : List Polygon) (i : Nat) :
    (createProvinceListFrom gen i shapes).map Province.id =
      (List.range shapes.length).map (fun k => i + k) := by
  induction shapes generalizing i with
  | nil => rfl
  | cons s rest ih =>
    simp only [createProvinceListFrom, List.map_cons, List.length_cons, List.range_succ_eq_map,
      List.map_map, ih]
    simp only [Nat.add_zero, List.cons.injEq, true_and]
    apply List.map_congr_left
    intro k _
    simp only [Function.comp_apply]
    omega

/-- C7 (as the code has it): `createProvinceList` returns one province per shape,
and the province built from the shape at index `i` has id `i` (the ids are the
0-based positions `0, 1, ..., n-1`). -/
theorem createProvinceList_ids_are_positions (gen : Nat → Color) (shape_list : List Polygon) :
    (createProvinceList gen shape_list).length = shape_list.length ∧
      (createProvinceList gen shape_list).map Province.id = List.range shape_list.length := by
  refine ⟨createProvinceListFrom_length gen shape_list 0, ?_⟩
  rw [createProvinceList, createProvinceListFrom_ids]
  simp

/-- C7 fails as stated: for a list of one shape the province built from the shape
at index 0 has id 0, not 1. -/
theorem createProvinceList_first_id_is_zero :
    ¬ ∀ (gen : Nat → Color) (shape_list : List Polygon) (i : Nat) (p : Province),
        (createProvinceList gen shape_list)[i]? = some p → p.id = i + 1 := by
  intro h
  have := h (fun _ => { r := 0, g := 0, b := 0 }) [{ color := { r := 1, g := 2, b := 3 } }] 0 _ rfl
  simp [createProvinceList, createProvinceListFrom] at this

/-! ### Save -/

/-- C10 wherever the directory step does not fail: for every state whose province
list is empty, when the project directory exists or can be created, `save`
returns true, leaves the error code as it was, leaves the project state as it
was and writes neither the label file nor the province file. -/
theorem save_empty_is_noop (magic : List Nat) (fmt : ProvinceFormat) (m : Machine)
    (hempty : m.info.provinces = [])
    (hdir : m.fs.root_exists = true ∨ m.fs.root_creatable = true) :
    ∃ m', save magic fmt m = Outcome.returned (true, m') ∧ m'.ec = m.ec ∧ m'.info = m.info ∧
      m'.fs.shapedata = m.fs.shapedata ∧ m'.fs.provincedata = m.fs.provincedata := by
  by_cases hroot : m.fs.root_exists = true
  · exact ⟨m.say LogMsg.nothing_to_write, by simp [save, hroot, hempty], rfl, rfl, rfl, rfl⟩
  · have hcreate : m.fs.root_creatable = true := by
      rcases hdir with h | h
      · exact absurd h hroot
      · exact h
    exact ⟨(({ m with fs := { m.fs with root_exists := true } } : Machine).say
        LogMsg.creating_directory).say LogMsg.nothing_to_write,
      by simp [save, hroot, hcreate, hempty, Machine.say], rfl, rfl, rfl, rfl⟩

/-- The no-op of `save` at a machine with an existing directory and no province. -/
theorem save_empty_is_noop_witness :
    ∃ m', save exampleMagic csvFormat emptyMachine = Outcome.returned (true, m') ∧
      m'.ec = emptyMachine.ec ∧ m'.info = emptyMachine.info ∧
      m'.fs.shapedata = emptyMachine.fs.shapedata ∧
      m'.fs.provincedata = emptyMachine.fs.provincedata :=
  save_empty_is_noop exampleMagic csvFormat emptyMachine rfl (Or.inl rfl)

/-- C10, the run at the failing input: the province list is empty, the project
directory is missing and cannot be created.  `save` leaves by the exception of
`std::filesystem::create_directory` instead of returning; in particular it does
not return true. -/
theorem save_empty_throws_without_directory :
    noDirectoryMachine.info.provinces = [] ∧
      save exampleMagic csvFormat noDirectoryMachine = Outcome.threw ∧
      ¬ ∃ m', save exampleMagic csvFormat noDirectoryMachine = Outcome.returned (true, m') := by
  refine ⟨rfl, rfl, ?_⟩
  rintro ⟨m', h⟩
  have h2 : save exampleMagic csvFormat noDirectoryMachine = Outcome.threw := rfl
  rw [h2] at h
  exact Outcome.noConfusion h

/-! ### Label file: writing -/

theorem u32Bytes_length (n : Nat) : (u32Bytes n).length = 4 := rfl

theorem labelsToBytes_length (lm : List Nat) : (labelsToBytes lm).length = 4 * lm.length := by
  induction lm with
  | nil => rfl
  | cons l ls ih => simp [labelsToBytes, ih, u32Bytes_length]; omega

theorem labelsToBytes_drop_take (lm : List Nat) (i l : Nat) (h : lm[i]? = some l) :
    ((labelsToBytes lm).drop (4 * i)).take 4 = u32Bytes l := by
  induction lm generalizing i with
  | nil => simp at h
  | cons a ls ih =>
    cases i with
    | zero =>
      simp only [List.getElem?_cons_zero, Option.some.injEq] at h
      subst h
      simp [labelsToBytes, u32Bytes]
    | succ j =>
      simp only [List.getElem?_cons_succ] at h
      have h4 : 4 * (j + 1) = 4 + 4 * j := by omega
      rw [h4, ← List.drop_drop]
      have hd : (labelsToBytes (a :: ls)).drop 4 = labelsToBytes ls := by
        simp [labelsToBytes, u32Bytes]
      rw [hd]
      exact ih j h

/-- C9: when the label file can be opened for writing, and the state holds an
image and a label matrix of `width * height` entries, the bytes `saveShapeLabels`
writes are exactly the magic marker, the width as a `uint32_t`, the height as a
`uint32_t`, the `width * height` labels as `uint32_t` in row-major order (the
label of pixel `(x, y)` stands at offset `|magic| + 8 + 4 * (y * width + x)`),
and one zero byte; their number is `|magic| + 8 + 4 * width * height + 1`. -/
theorem saveShapeLabels_writes_layout (magic : List Nat) (m : Machine) (image : BitMap)
    (lm : List Nat)
    (himg : m.info.image = some image) (hlm : m.info.label_matrix = some lm)
    (hsize : m.info.label_matrix_size = image.width * image.height)
    (hlen : lm.length = image.width * image.height)
    (hopen : m.fs.shapedata_writable = true) :
    ∃ m' bytes, saveShapeLabels magic m = Outcome.returned (true, m') ∧
      m'.fs.shapedata = some bytes ∧
      bytes = magic ++ u32Bytes image.width ++ u32Bytes image.height ++ labelsToBytes lm ++ [0] ∧
      bytes.length = magic.length + 8 + 4 * image.width * image.height + 1 ∧
      ∀ x y, x < image.width → y < image.height →
        ∃ l, lm[y * image.width + x]? = some l ∧
          (bytes.drop (magic.length + 8 + 4 * (y * image.width + x))).take 4 = u32Bytes l := by
  have htake : lm.take (image.width * image.height) = lm := by
    rw [← hlen]; exact List.take_length lm
  refine ⟨{ m with fs := { m.fs with shapedata := some (magic ++ u32Bytes image.width ++
      u32Bytes image.height ++ labelsToBytes lm ++ [0]) } }, _, ?_, rfl, rfl, ?_, ?_⟩
  · simp [saveShapeLabels, hopen, himg, hlm, hsize, hlen, htake]
  · simp only [List.length_append, u32Bytes_length, labelsToBytes_length, hlen,
      List.length_singleton]
    ring
  · intro x y hx hy
    have hidx : y * image.width + x < lm.length := by
      rw [hlen]
      calc y * image.width + x < y * image.width + image.width := by omega
        _ = image.width * (y + 1) := by ring
        _ ≤ image.width * image.height := Nat.mul_le_mul_left _ hy
    refine ⟨lm[y * image.width + x], List.getElem?_eq_getElem hidx, ?_⟩
    have hsplit : magic ++ u32Bytes image.width ++ u32Bytes image.height ++ labelsToBytes lm ++ [0]
        = (magic ++ u32Bytes image.width ++ u32Bytes image.height) ++ (labelsToBytes lm ++ [0]) := by
      simp
    have hpre : (magic ++ u32Bytes image.width ++ u32Bytes image.height).length
        = magic.length + 8 := by
      simp [u32Bytes_length]
    rw [hsplit, ← List.drop_drop, ← hpre, List.drop_left,
      List.drop_append_of_le_length (by rw [labelsToBytes_length]; omega),
      List.take_append_of_le_length]
    · exact labelsToBytes_drop_take lm _ _ (List.getElem?_eq_getElem hidx)
    · rw [List.length_drop, labelsToBytes_length]; omega

/-- C9 at a state for an image of two by one pixels. -/
theorem saveShapeLabels_writes_layout_witness :
    ∃ m' bytes, saveShapeLabels exampleMagic exampleMachine = Outcome.returned (true, m') ∧
      m'.fs.shapedata = some bytes ∧
      bytes = exampleMagic ++ u32Bytes 2 ++ u32Bytes 1 ++ labelsToBytes [2, 1] ++ [0] ∧
      bytes.length = exampleMagic.length + 8 + 4 * 2 * 1 + 1 ∧
      ∀ x y, x < 2 → y < 1 →
        ∃ l, [2, 1][y * 2 + x]? = some l ∧
          (bytes.drop (exampleMagic.length + 8 + 4 * (y * 2 + x))).take 4 = u32Bytes l :=
  saveShapeLabels_writes_layout exampleMagic exampleMachine { width := 2, height := 1 } [2, 1]
    rfl rfl rfl rfl rfl

/-! ### Label file: reading -/

theorem readHeader_of_short (bytes : List Nat) (h : bytes.length < 12) :
    readHeader bytes = none := by
  unfold readHeader safeRead
  by_cases h1 : bytes.length < 4
  · simp [h1]
  · simp only [h1, if_false, List.length_drop]
    by_cases h2 : bytes.length - 4 < 4
    · simp [h2]
    · simp only [h2, if_false, List.length_drop]
      have h3 : bytes.length - 4 - 4 < 4 := by omega
      simp [h3]

theorem readHeader_of_long (bytes : List Nat) (h : 12 ≤ bytes.length) :
    readHeader bytes =
      some (bytes.take 4, declaredWidth bytes, declaredHeight bytes, bytes.drop 12) := by
  unfold readHeader safeRead declaredWidth declaredHeight
  have h1 : ¬ bytes.length < 4 := by omega
  have h2 : ¬ bytes.length - 4 < 4 := by omega
  have h3 : ¬ bytes.length - (4 + 4) < 4 := by omega
  simp only [h1, h2, h3, if_false, List.length_drop, List.drop_drop]

/-- What `loadShapeLabels` does on a label file that exists and opens, by the
length of the file. -/
theorem loadShapeLabels_eq (m : Machine) (bytes : List Nat)
    (hfile : m.fs.shapedata = some bytes) (hopen : m.fs.shapedata_readable = true) :
    loadShapeLabels m =
      if bytes.length < 12 then
        Outcome.returned
          (false, ({ m with ec := ErrorCode.generic m.fs.errno }).say LogMsg.header_read_failed)
      else if bytes.length < 12 + 4 * u32 (declaredWidth bytes * declaredHeight bytes) then
        Outcome.returned
          (false,
            ({ m with
                info := { m.info with
                  label_matrix := none
                  label_matrix_size := u32 (declaredWidth bytes * declaredHeight bytes) }
                ec := ErrorCode.generic m.fs.errno }).say LogMsg.label_matrix_read_failed)
      else
        Outcome.returned
          (true,
            { m with
              info := { m.info with
                label_matrix := some (labelsOfBytes (u32 (declaredWidth bytes * declaredHeight bytes))
                  ((bytes.drop 12).take (u32 (declaredWidth bytes * declaredHeight bytes) * 4)))
                label_matrix_size := u32 (declaredWidth bytes * declaredHeight bytes) } }) := by
  unfold loadShapeLabels
  simp only [hfile, hopen, if_true]
  by_cases h : bytes.length < 12
  · simp only [readHeader_of_short bytes h, h, if_true]
  · simp only [readHeader_of_long bytes (by omega), h, if_false, safeRead, List.length_drop]
    by_cases h2 : bytes.length < 12 + 4 * u32 (declaredWidth bytes * declaredHeight bytes)
    · have h3 : bytes.length - 12 < u32 (declaredWidth bytes * declaredHeight bytes) * 4 := by omega
      simp only [h2, h3, if_true]
    · have h3 : ¬ bytes.length - 12 < u32 (declaredWidth bytes * declaredHeight bytes) * 4 := by
        omega
      simp only [h2, h3, if_false]

/-- C3 (as the code has it): for a label file that exists and opens and whose
declared `width * height` is below `2^32`, `loadShapeLabels` succeeds exactly when
the file holds at least the 12 header bytes and the `4 * width * height` label
bytes; a shorter file makes it return false with the error code built from
`errno`.  Bytes behind the label data, and so the terminator and anything after
it, are never read. -/
theorem loadShapeLabels_succeeds_iff (m : Machine) (bytes : List Nat)
    (hfile : m.fs.shapedata = some bytes) (hopen : m.fs.shapedata_readable = true)
    (hdim : declaredWidth bytes * declaredHeight bytes < 4294967296) :
    ((∃ m', loadShapeLabels m = Outcome.returned (true, m')) ↔
        12 + 4 * (declaredWidth bytes * declaredHeight bytes) ≤ bytes.length) ∧
      (bytes.length < 12 + 4 * (declaredWidth bytes * declaredHeight bytes) →
        ∃ m', loadShapeLabels m = Outcome.returned (false, m') ∧
          m'.ec = ErrorCode.generic m.fs.errno) := by
  have hu : u32 (declaredWidth bytes * declaredHeight bytes) =
      declaredWidth bytes * declaredHeight bytes := Nat.mod_eq_of_lt hdim
  rw [loadShapeLabels_eq m bytes hfile hopen, hu]
  by_cases h : bytes.length < 12
  · simp only [h, if_true]
    refine ⟨⟨fun ⟨m', hm⟩ => ?_, fun hl => by omega⟩, fun _ => ⟨_, rfl, rfl⟩⟩
    simp at hm
  · simp only [h, if_false]
    by_cases h2 : bytes.length < 12 + 4 * (declaredWidth bytes * declaredHeight bytes)
    · simp only [h2, if_true]
      refine ⟨⟨fun ⟨m', hm⟩ => ?_, fun hl => by omega⟩, fun _ => ⟨_, rfl, rfl⟩⟩
      simp at hm
    · simp only [h2, if_false]
      exact ⟨⟨fun _ => by omega, fun _ => ⟨_, rfl⟩⟩, fun hl => False.elim hl⟩

/-- C3 at a complete label file followed by three more bytes. -/
theorem loadShapeLabels_succeeds_iff_witness :
    ((∃ m', loadShapeLabels (labelFileMachine overlongLabelFile) = Outcome.returned (true, m')) ↔
        12 + 4 * (declaredWidth overlongLabelFile * declaredHeight overlongLabelFile) ≤
          overlongLabelFile.length) ∧
      (overlongLabelFile.length <
          12 + 4 * (declaredWidth overlongLabelFile * declaredHeight overlongLabelFile) →
        ∃ m', loadShapeLabels (labelFileMachine overlongLabelFile) = Outcome.returned (false, m') ∧
          m'.ec = ErrorCode.generic (labelFileMachine overlongLabelFile).fs.errno) :=
  loadShapeLabels_succeeds_iff (labelFileMachine overlongLabelFile) overlongLabelFile rfl rfl
    (by decide)

/-- C3 fails as stated: a complete label file for one pixel followed by three
more bytes is longer than its header declares (20 bytes instead of 17), and
`loadShapeLabels` returns true with the label matrix read from it. -/
theorem loadShapeLabels_accepts_overlong_file :
    overlongLabelFile.length ≠
        4 + 8 + declaredWidth overlongLabelFile * declaredHeight overlongLabelFile * 4 + 1 ∧
      ∃ m', loadShapeLabels (labelFileMachine overlongLabelFile) = Outcome.returned (true, m') ∧
        m'.info.label_matrix = some [7] ∧ m'.ec = ErrorCode.cleared := by
  refine ⟨by decide, _, rfl, by decide, rfl⟩

/-- C2, the run at the failing input: whatever the magic marker is, there is a
label file whose first four bytes differ from it on which `loadShapeLabels`
returns true and installs the label matrix read from that file. -/
theorem loadShapeLabels_ignores_magic (SHAPEDATA_MAGIC : List Nat) :
    ∃ bytes, bytes.take 4 ≠ SHAPEDATA_MAGIC ∧
      ∃ m', loadShapeLabels (labelFileMachine bytes) = Outcome.returned (true, m') ∧
        m'.info.label_matrix = some [7] ∧ m'.ec = ErrorCode.cleared := by
  by_cases h : SHAPEDATA_MAGIC = [88, 88, 88, 88]
  · refine ⟨[89, 89, 89, 89, 1, 0, 0, 0, 1, 0, 0, 0, 7, 0, 0, 0, 0], ?_, _, rfl, by decide, rfl⟩
    rw [h]; decide
  · refine ⟨[88, 88, 88, 88, 1, 0, 0, 0, 1, 0, 0, 0, 7, 0, 0, 0, 0], ?_, _, rfl, by decide, rfl⟩
    intro h2
    exact h h2.symm

/-- C4, away from overflow: for a label file that exists and opens, has a
readable header with declared `width * height` below `2^32`, and holds fewer than
`width * height * 4` bytes behind the header, `loadShapeLabels` returns false,
sets the error code built from `errno` and leaves the label matrix null. -/
theorem loadShapeLabels_truncated_fails (m : Machine) (bytes : List Nat)
    (hfile : m.fs.shapedata = some bytes) (hopen : m.fs.shapedata_readable = true)
    (hheader : 12 ≤ bytes.length)
    (hdim : declaredWidth bytes * declaredHeight bytes < 4294967296)
    (hshort : (bytes.drop 12).length < declaredWidth bytes * declaredHeight bytes * 4) :
    ∃ m', loadShapeLabels m = Outcome.returned (false, m') ∧
      m'.ec = ErrorCode.generic m.fs.errno ∧ m'.info.label_matrix = none := by
  have hu : u32 (declaredWidth bytes * declaredHeight bytes) =
      declaredWidth bytes * declaredHeight bytes := Nat.mod_eq_of_lt hdim
  rw [List.length_drop] at hshort
  have h1 : ¬ bytes.length < 12 := by omega
  have h2 : bytes.length < 12 + 4 * (declaredWidth bytes * declaredHeight bytes) := by omega
  rw [loadShapeLabels_eq m bytes hfile hopen, hu]
  simp only [h1, h2, if_false, if_true]
  exact ⟨_, rfl, rfl, rfl⟩

/-- C4, the run at the failing input: the label file declares width `2^31 + 1`
and height 2, so `width * height * 4` is far above the 8 bytes it holds behind the
header; the 32-bit product wraps to 2 and `loadShapeLabels` returns true with a
label matrix of two entries and no error code. -/
theorem loadShapeLabels_accepts_wrapped_size :
    declaredWidth overflowLabelFile = 2147483649 ∧ declaredHeight overflowLabelFile = 2 ∧
      (overflowLabelFile.drop 12).length <
        declaredWidth overflowLabelFile * declaredHeight overflowLabelFile * 4 ∧
      ∃ m', loadShapeLabels (labelFileMachine overflowLabelFile) = Outcome.returned (true, m') ∧
        m'.info.label_matrix = some [7, 8] ∧ m'.ec = ErrorCode.cleared := by
  refine ⟨by decide, by decide, by decide, _, rfl, by decide, rfl⟩

/-! ### Load: size of the label matrix against the image -/

/-- C8, the runs at the failing inputs.  With a source image of two by two pixels
and a label file written for one by one pixel, both files load and the rebuild of
the graphics data reads the label matrix outside its single entry.  With a source
image of one by one pixel and a label file written for two by two pixels, `load`
returns true and the label matrix has four entries for an image of one pixel. -/
theorem load_does_not_compare_sizes :
    load csvFormat (projectMachine { width := 2, height := 2 } onePixelLabelFile oneProvinceFile)
        = Outcome.undefined ∧
      ∃ m', load csvFormat
          (projectMachine { width := 1, height := 1 } fourPixelLabelFile oneProvinceFile)
            = Outcome.returned (true, m') ∧
        m'.info.image = some { width := 1, height := 1 } ∧ m'.info.label_matrix_size = 4 ∧
        m'.info.label_matrix = some [1, 1, 1, 1] := by
  refine ⟨by decide, _, rfl, by decide, by decide, by decide⟩

/-! ### Province file: reading -/

theorem u32_succ_add (n k : Nat) : u32 (u32 (n + 1) + k) = u32 (n + (k + 1)) := by
  unfold u32; omega

theorem addProvinces_nil (m : Machine) : m.addProvinces [] = m := by
  cases m with
  | mk info ec fs log =>
    cases info
    simp [Machine.addProvinces]

theorem addProvinces_addProvinces (m : Machine) (a b : List Province) :
    (m.addProvinces a).addProvinces b = m.addProvinces (a ++ b) := by
  simp [Machine.addProvinces]

/-- The loop of `loadProvinceData` over lines that are all blank or well formed:
it reaches the line behind them with the line counter advanced once per line
and the parsed provinces appended. -/
theorem loadProvinceLoop_append (fmt : ProvinceFormat) (pre rest : List (List Char))
    (hpre : ∀ l ∈ pre, l = [] ∨ (fmt.parseValues l).isSome = true) (n : Nat) (m : Machine)
    (hn : n < 4294967296) :
    loadProvinceLoop fmt n (pre ++ rest) m =
      loadProvinceLoop fmt (u32 (n + pre.length)) rest (m.addProvinces (parsedProvinces fmt pre)) := by
  induction pre generalizing n m with
  | nil =>
    have : u32 n = n := Nat.mod_eq_of_lt hn
    simp [parsedProvinces, addProvinces_nil, this]
  | cons line pre ih =>
    have hrest : ∀ l ∈ pre, l = [] ∨ (fmt.parseValues l).isSome = true :=
      fun l hl => hpre l (List.mem_cons_of_mem _ hl)
    have hlt : u32 (n + 1) < 4294967296 := Nat.mod_lt _ (by decide)
    by_cases hempty : line.isEmpty = true
    · simp only [List.cons_append, loadProvinceLoop, hempty, if_true, parsedProvinces,
        List.length_cons, List.append_eq]
      rw [ih hrest _ _ hlt, u32_succ_add]
    · rcases hpre line (List.mem_cons_self _ _) with h | h
      · subst h; simp at hempty
      · obtain ⟨p, hp⟩ := Option.isSome_iff_exists.mp h
        simp only [List.cons_append, loadProvinceLoop, hempty, if_false, parsedProvinces,
          List.length_cons, hp, Bool.false_eq_true, List.append_eq]
        rw [ih hrest _ _ hlt, u32_succ_add]
        have : ({ m with info := { m.info with provinces := m.info.provinces ++ [p] } } : Machine)
            = m.addProvinces [p] := rfl
        rw [this, addProvinces_addProvinces]
        rfl

/-- C5: when the province file exists and opens, and its lines are `pre`, then a
non-empty line `bad` that does not parse, then `post`, where every line of `pre`
is blank or parses, `loadProvinceData` returns false with error code
`bad_message` and reports `bad` under the line number `|pre| + 1`, its 1-based
position among all lines, blank ones counted.  Nothing behind `bad` is looked at.
The line counter is a `uint32_t`: the position is taken below `2^32`. -/
theorem loadProvinceData_reports_first_bad_line (fmt : ProvinceFormat) (m : Machine)
    (content : List Char) (pre : List (List Char)) (bad : List Char) (post : List (List Char))
    (hfile : m.fs.provincedata = some content) (hopen : m.fs.provincedata_readable = true)
    (hlines : getlines content = pre ++ bad :: post)
    (hpre : ∀ l ∈ pre, l = [] ∨ (fmt.parseValues l).isSome = true)
    (hne : bad ≠ []) (hbad : fmt.parseValues bad = none)
    (hpos : pre.length + 1 < 4294967296) :
    ∃ m', loadProvinceData fmt m = Outcome.returned (false, m') ∧
      m'.ec = ErrorCode.bad_message ∧
      m'.log = m.log ++ [LogMsg.parse_failed (pre.length + 1) bad] := by
  have hu : u32 (1 + pre.length) = pre.length + 1 := by
    unfold u32; omega
  have hisEmpty : bad.isEmpty = false := by
    cases bad with
    | nil => exact absurd rfl hne
    | cons c cs => rfl
  unfold loadProvinceData
  simp only [hfile, hopen, if_true, hlines]
  rw [loadProvinceLoop_append fmt pre (bad :: post) hpre 1 _ (by decide), hu]
  simp only [loadProvinceLoop, hisEmpty, hbad, Bool.false_eq_true, if_false]
  exact ⟨_, rfl, rfl, rfl⟩

/-- C5 at a province file whose third line lacks fields and whose second line is blank: line 3 is reported. -/
theorem loadProvinceData_reports_first_bad_line_witness :
    ∃ m', loadProvinceData csvFormat
          (projectMachine { width := 1, height := 1 } onePixelLabelFile badProvinceFile)
        = Outcome.returned (false, m') ∧
      m'.ec = ErrorCode.bad_message ∧
      m'.log = (projectMachine { width := 1, height := 1 } onePixelLabelFile badProvinceFile).log ++
        [LogMsg.parse_failed
          (["0;10;20;30;UNKNOWN;false;UNKNOWN;1".toList, []].length + 1) "3;10;20".toList] :=
  loadProvinceData_reports_first_bad_line csvFormat
    (projectMachine { width := 1, height := 1 } onePixelLabelFile badProvinceFile)
    badProvinceFile ["0;10;20;30;UNKNOWN;false;UNKNOWN;1".toList, []] "3;10;20".toList
    ["1;40;50;60;UNKNOWN;false;UNKNOWN;1".toList] rfl rfl (by decide) (by decide) (by decide)
    (by decide) (by decide)

/-! ### Load: rebuilding the graphics data -/

theorem pixel_index_lt (w h x y : Nat) (hx : x < w) (hy : y < h) : y * w + x < w * h := by
  calc y * w + x < y * w + w := by omega
    _ = w * (y + 1) := by ring
    _ ≤ w * h := Nat.mul_le_mul_left _ hy

theorem pixel_index_inj (w x y x' y' : Nat) (hx : x < w) (hx' : x' < w)
    (h : y * w + x = y' * w + x') : x = x' ∧ y = y' := by
  have hw : 0 < w := by omega
  have h1 : (y * w + x) % w = x := by
    rw [Nat.add_comm, Nat.add_mul_mod_self_right]; exact Nat.mod_eq_of_lt hx
  have h2 : (y' * w + x') % w = x' := by
    rw [Nat.add_comm, Nat.add_mul_mod_self_right]; exact Nat.mod_eq_of_lt hx'
  have h3 : (y * w + x) / w = y := by
    rw [Nat.add_comm, Nat.add_mul_div_right _ _ hw, Nat.div_eq_of_lt hx, Nat.zero_add]
  have h4 : (y' * w + x') / w = y' := by
    rw [Nat.add_comm, Nat.add_mul_div_right _ _ hw, Nat.div_eq_of_lt hx', Nat.zero_add]
  rw [h] at h1 h3
  exact ⟨h1.symm.trans h2, h3.symm.trans h4⟩

/-- Without 32-bit overflow the label index of a pixel is `y * width + x`. -/
theorem xyToIndex_label (w h x y : Nat) (hsz : 3 * w * h < 4294967296) (hx : x < w)
    (hy : y < h) : xyToIndex w x y = y * w + x := by
  have hidx := pixel_index_lt w h x y hx hy
  have hsz' : 3 * (w * h) < 4294967296 := by rw [← Nat.mul_assoc]; exact hsz
  unfold xyToIndex u32
  omega

/-- Without 32-bit overflow the graphics index of a pixel is three times its
label index. -/
theorem xyToIndex_graphics (w h x y : Nat) (hsz : 3 * w * h < 4294967296) (hx : x < w)
    (hy : y < h) : xyToIndex (u32 (w * 3)) (u32 (x * 3)) y = 3 * (y * w + x) := by
  have hidx := pixel_index_lt w h x y hx hy
  have hsz' : 3 * (w * h) < 4294967296 := by rw [← Nat.mul_assoc]; exact hsz
  have hwh : w ≤ w * h := Nat.le_mul_of_pos_right w (by omega)
  have hw3 : u32 (w * 3) = w * 3 := Nat.mod_eq_of_lt (by omega)
  have hx3 : u32 (x * 3) = x * 3 := Nat.mod_eq_of_lt (by omega)
  have hmul : y * (w * 3) = 3 * (y * w) := by ring
  rw [hw3, hx3]
  unfold xyToIndex u32
  rw [hmul]
  omega

theorem data_size_eq (w h : Nat) (hsz : 3 * w * h < 4294967296) :
    u32 (u32 (w * h) * 3) = 3 * w * h := by
  have hsz' : 3 * (w * h) < 4294967296 := by rw [← Nat.mul_assoc]; exact hsz
  have h3 : 3 * w * h = 3 * (w * h) := Nat.mul_assoc 3 w h
  unfold u32
  omega

theorem storeColor_eq (g : Nat) (c : Color) (buf : List Nat) (hg : g + 2 < buf.length)
    (hlt : g + 2 < 4294967296) :
    storeColor g c buf = some (((buf.set g c.r).set (g + 1) c.g).set (g + 2) c.b) := by
  have h1 : u32 (g + 1) = g + 1 := Nat.mod_eq_of_lt (by omega)
  have h2 : u32 (g + 2) = g + 2 := Nat.mod_eq_of_lt (by omega)
  have hg0 : g < buf.length := by omega
  have hg1 : g + 1 < buf.length := by omega
  simp [storeColor, storeByte, h1, h2, hg0, hg1, hg]

theorem storeColor_getElem? (g : Nat) (c : Color) (buf : List Nat) (hg : g + 2 < buf.length)
    (j : Nat) :
    (((buf.set g c.r).set (g + 1) c.g).set (g + 2) c.b)[j]? =
      if g ≤ j ∧ j < g + 3 then some (c.channel (j - g)) else buf[j]? := by
  simp only [List.getElem?_set, List.length_set]
  by_cases h0 : j = g
  · subst h0
    simp [Color.channel]
    omega
  · by_cases h1 : j = g + 1
    · subst h1
      simp [Color.channel]
      omega
    · by_cases h2 : j = g + 2
      · subst h2
        simp [Color.channel, hg]
      · have e0 : ¬ g = j := fun h => h0 h.symm
        have e1 : ¬ g + 1 = j := fun h => h1 h.symm
        have e2 : ¬ g + 2 = j := fun h => h2 h.symm
        have e3 : ¬ (g ≤ j ∧ j < g + 3) := by omega
        simp [e0, e1, e2, e3]

/-- One pass of the inner loop body at an in-range pixel, without 32-bit
overflow: no access leaves a buffer, the buffer keeps its length, and its bytes
change only for a label in `[1, N]`, and then only at the three bytes of the
pixel. -/
theorem rebuildPixel_spec (w h x y : Nat) (lm : List Nat) (provinces : List Province)
    (buf : List Nat) (log : List LogMsg) (label : Nat)
    (hsz : 3 * w * h < 4294967296) (hx : x < w) (hy : y < h)
    (hlabel : lm[y * w + x]? = some label) (hbuf : buf.length = 3 * w * h) :
    ∃ buf' log', rebuildPixel w lm provinces (buf, log) (x, y) = some (buf', log') ∧
      buf'.length = buf.length ∧
      ∀ j, buf'[j]? =
        match labelColor provinces label with
        | some c =>
          if 3 * (y * w + x) ≤ j ∧ j < 3 * (y * w + x) + 3 then
            some (c.channel (j - 3 * (y * w + x)))
          else buf[j]?
        | none => buf[j]? := by
  have hidx := pixel_index_lt w h x y hx hy
  have hsz' : 3 * (w * h) < 4294967296 := by rw [← Nat.mul_assoc]; exact hsz
  have h3 : 3 * w * h = 3 * (w * h) := Nat.mul_assoc 3 w h
  unfold rebuildPixel
  simp only [xyToIndex_label w h x y hsz hx hy, xyToIndex_graphics w h x y hsz hx hy, hlabel]
  by_cases hvalid : label = 0 ∨ label > provinces.length
  · refine ⟨buf, log ++ [LogMsg.label_out_of_range label x y provinces.length],
      by simp only [hvalid, if_true], rfl, fun j => ?_⟩
    simp [labelColor, hvalid]
  · have hin : label - 1 < provinces.length := by omega
    have hprov : provinces[label - 1]? = some provinces[label - 1] :=
      List.getElem?_eq_getElem hin
    have hg : 3 * (y * w + x) + 2 < buf.length := by omega
    refine ⟨((buf.set (3 * (y * w + x)) provinces[label - 1].unique_color.r).set
        (3 * (y * w + x) + 1) provinces[label - 1].unique_color.g).set
        (3 * (y * w + x) + 2) provinces[label - 1].unique_color.b, log, ?_, ?_, fun j => ?_⟩
    · simp only [hvalid, if_false, hprov]
      rw [storeColor_eq _ _ _ hg (by omega)]
    · simp
    · rw [storeColor_getElem? _ _ _ hg]
      simp [labelColor, hvalid, hprov]

/-- The nested loops visit exactly the pixels of the image, each once. -/
theorem mem_pixelOrder (w h x y : Nat) : (x, y) ∈ pixelOrder w h ↔ x < w ∧ y < h := by
  simp [pixelOrder]

theorem pixelOrder_nodup (w h : Nat) : (pixelOrder w h).Nodup :=
  List.Nodup.product (List.nodup_range w) (List.nodup_range h)

/-- The loops of `load` over any duplicate-free list of in-range pixels, without
32-bit overflow and with a label matrix that covers the image: no access leaves
a buffer, and the three bytes of a pixel hold the colour of its label when the
pixel was visited and its label lies in `[1, N]`, else what they held before. -/
theorem rebuild_fold (w h : Nat) (lm : List Nat) (provinces : List Province)
    (hsz : 3 * w * h < 4294967296) (hlm : w * h ≤ lm.length) (ps : List (Nat × Nat))
    (hps : ∀ p ∈ ps, p.1 < w ∧ p.2 < h) (hnd : ps.Nodup) (buf : List Nat) (log : List LogMsg)
    (hbuf : buf.length = 3 * w * h) :
    ∃ buf' log', ps.foldlM (rebuildPixel w lm provinces) (buf, log) = some (buf', log') ∧
      buf'.length = 3 * w * h ∧
      ∀ x y label k, x < w → y < h → lm[y * w + x]? = some label → k < 3 →
        buf'[3 * (y * w + x) + k]? =
          match labelColor provinces label with
          | some c => if (x, y) ∈ ps then some (c.channel k) else buf[3 * (y * w + x) + k]?
          | none => buf[3 * (y * w + x) + k]? := by
  induction ps generalizing buf log with
  | nil =>
    refine ⟨buf, log, rfl, hbuf, fun x y label k _ _ _ _ => ?_⟩
    cases labelColor provinces label <;> simp
  | cons q rest ih =>
    obtain ⟨qx, qy⟩ := q
    have hq := hps (qx, qy) (List.mem_cons_self _ _)
    have hqidx := pixel_index_lt w h qx qy hq.1 hq.2
    have hqlabel : lm[qy * w + qx]? = some lm[qy * w + qx] :=
      List.getElem?_eq_getElem (by omega)
    obtain ⟨buf1, log1, hstep, hlen1, hget1⟩ :=
      rebuildPixel_spec w h qx qy lm provinces buf log _ hsz hq.1 hq.2 hqlabel hbuf
    have hnd' := List.nodup_cons.mp hnd
    obtain ⟨buf2, log2, hfold, hlen2, hget2⟩ :=
      ih (fun p hp => hps p (List.mem_cons_of_mem _ hp)) hnd'.2 buf1 log1 (hlen1.trans hbuf)
    refine ⟨buf2, log2, ?_, hlen2, fun x y label k hx hy hl hk => ?_⟩
    · rw [List.foldlM_cons, hstep]
      exact hfold
    · rw [hget2 x y label k hx hy hl hk, hget1]
      by_cases heq : (x, y) = (qx, qy)
      · obtain ⟨rfl, rfl⟩ := Prod.mk.inj heq
        have hlabel_eq : lm[y * w + x] = label := by
          rw [hqlabel] at hl; exact Option.some.inj hl
        have hnot : (x, y) ∉ rest := hnd'.1
        rw [hlabel_eq]
        cases hc : labelColor provinces label with
        | none => rfl
        | some c =>
          have hrange : 3 * (y * w + x) ≤ 3 * (y * w + x) + k ∧
              3 * (y * w + x) + k < 3 * (y * w + x) + 3 := by omega
          simp [hnot, hrange]
      · have hne : qy * w + qx ≠ y * w + x := by
          intro hcontra
          obtain ⟨h1, h2⟩ := pixel_index_inj w qx qy x y hq.1 hx hcontra
          exact heq (by rw [h1, h2])
        have hout : ¬ (3 * (qy * w + qx) ≤ 3 * (y * w + x) + k ∧
            3 * (y * w + x) + k < 3 * (qy * w + qx) + 3) := by omega
        have hmem : ((x, y) ∈ (qx, qy) :: rest) ↔ (x, y) ∈ rest := by
          simp [heq]
        cases hc : labelColor provinces label with
        | none => cases hc1 : labelColor provinces lm[qy * w + qx] <;> simp [hout]
        | some c =>
          cases hc1 : labelColor provinces lm[qy * w + qx] <;> simp [hout, hmem]

/-! ### What the two file readers leave alone -/

theorem andThen_eq_true (a : Outcome (Bool × Machine)) (f : Machine → Outcome (Bool × Machine))
    (m2 : Machine) (h : andThen a f = Outcome.returned (true, m2)) :
    ∃ m1, a = Outcome.returned (true, m1) ∧ f m1 = Outcome.returned (true, m2) := by
  cases a with
  | returned r =>
    obtain ⟨b, m1⟩ := r
    cases b with
    | true => exact ⟨m1, rfl, h⟩
    | false => simp [andThen] at h
  | threw => simp [andThen] at h
  | undefined => simp [andThen] at h

theorem loadProvinceLoop_frame (fmt : ProvinceFormat) (lines : List (List Char)) (n : Nat)
    (m : Machine) :
    (loadProvinceLoop fmt n lines m).2.fs = m.fs ∧
      (loadProvinceLoop fmt n lines m).2.info.image = m.info.image ∧
      (loadProvinceLoop fmt n lines m).2.info.label_matrix = m.info.label_matrix ∧
      (loadProvinceLoop fmt n lines m).2.info.label_matrix_size = m.info.label_matrix_size := by
  induction lines generalizing n m with
  | nil => exact ⟨rfl, rfl, rfl, rfl⟩
  | cons line rest ih =>
    unfold loadProvinceLoop
    by_cases hempty : line.isEmpty = true
    · simp only [hempty, if_true]
      exact ih _ _
    · simp only [hempty, if_false, Bool.false_eq_true]
      cases hp : fmt.parseValues line with
      | none => exact ⟨rfl, rfl, rfl, rfl⟩
      | some p =>
        simp only []
        exact ih _ _

theorem loadProvinceData_frame (fmt : ProvinceFormat) (m m' : Machine) (b : Bool)
    (h : loadProvinceData fmt m = Outcome.returned (b, m')) :
    m'.fs = m.fs ∧ m'.info.image = m.info.image ∧
      m'.info.label_matrix = m.info.label_matrix ∧
      m'.info.label_matrix_size = m.info.label_matrix_size := by
  unfold loadProvinceData at h
  cases hfile : m.fs.provincedata with
  | none =>
    simp only [hfile, Outcome.returned.injEq, Prod.mk.injEq] at h
    obtain ⟨-, rfl⟩ := h
    exact ⟨rfl, rfl, rfl, rfl⟩
  | some content =>
    simp only [hfile] at h
    by_cases hopen : m.fs.provincedata_readable = true
    · simp only [hopen, if_true] at h
      have hframe := loadProvinceLoop_frame fmt (getlines content) 1
        ({ m with ec := ErrorCode.cleared, info := { m.info with provinces := [] } } : Machine)
      generalize loadProvinceLoop fmt 1 (getlines content)
        ({ m with ec := ErrorCode.cleared, info := { m.info with provinces := [] } } : Machine)
          = r at h hframe
      obtain ⟨b2, m2⟩ := r
      cases b2 with
      | true =>
        simp only [Outcome.returned.injEq, Prod.mk.injEq] at h
        obtain ⟨-, rfl⟩ := h
        exact hframe
      | false =>
        simp only [Outcome.returned.injEq, Prod.mk.injEq] at h
        obtain ⟨-, rfl⟩ := h
        exact hframe
    · simp only [hopen, if_false, Bool.false_eq_true, Outcome.returned.injEq, Prod.mk.injEq] at h
      obtain ⟨-, rfl⟩ := h
      exact ⟨rfl, rfl, rfl, rfl⟩

theorem loadShapeLabels_frame (m m' : Machine) (b : Bool)
    (h : loadShapeLabels m = Outcome.returned (b, m')) :
    m'.fs = m.fs ∧ m'.info.image = m.info.image ∧ m'.info.provinces = m.info.provinces := by
  cases hfile : m.fs.shapedata with
  | none =>
    simp only [loadShapeLabels, hfile, Outcome.returned.injEq, Prod.mk.injEq] at h
    obtain ⟨-, rfl⟩ := h
    exact ⟨rfl, rfl, rfl⟩
  | some bytes =>
    by_cases hopen : m.fs.shapedata_readable = true
    · rw [loadShapeLabels_eq m bytes hfile hopen] at h
      split_ifs at h <;>
        (simp only [Outcome.returned.injEq, Prod.mk.injEq] at h
         obtain ⟨-, rfl⟩ := h
         exact ⟨rfl, rfl, rfl⟩)
    · simp only [loadShapeLabels, hfile, hopen, if_false, Bool.false_eq_true,
        Outcome.returned.injEq, Prod.mk.injEq] at h
      obtain ⟨-, rfl⟩ := h
      exact ⟨rfl, rfl, rfl⟩

theorem freshBuffer_length (fs : FileSystem) (n : Nat) : (freshBuffer fs n).length = n := by
  simp [freshBuffer]

/-- C6: let the project directory exist, the source image be readable, and both
files load, giving `N` provinces and a label matrix that covers the image, with
`3 * width * height` below `2^32`.  Then `load` returns true whatever the labels
are, the graphics buffer has three bytes per pixel, and for every pixel `(x, y)`
of the image with label `L`: when `1 ≤ L ≤ N` the bytes at `3 * (y * width + x)`,
`+ 1`, `+ 2` are the `r`, `g`, `b` of the province at position `L - 1`; when `L` is
0 or above `N` these three bytes are still what the fresh buffer held. -/
theorem load_rebuilds_graphics (fmt : ProvinceFormat) (m m2 : Machine) (image : BitMap)
    (lm : List Nat)
    (hroot : m.fs.root_exists = true)
    (himg : m.fs.input_provincemap = some (some image))
    (hfiles : andThen (loadProvinceData fmt { m with info := { m.info with image := some image } })
      loadShapeLabels = Outcome.returned (true, m2))
    (hlm : m2.info.label_matrix = some lm)
    (hcover : image.width * image.height ≤ lm.length)
    (hsz : 3 * image.width * image.height < 4294967296) :
    ∃ m3 buf, load fmt m = Outcome.returned (true, m3) ∧
      m3.info.graphics_data = some buf ∧ buf.length = 3 * image.width * image.height ∧
      m3.info.provinces = m2.info.provinces ∧ m3.info.label_matrix = some lm ∧
      ∀ x y label, x < image.width → y < image.height →
        lm[y * image.width + x]? = some label →
        (1 ≤ label ∧ label ≤ m2.info.provinces.length →
          ∃ p, m2.info.provinces[label - 1]? = some p ∧
            buf[3 * (y * image.width + x)]? = some p.unique_color.r ∧
            buf[3 * (y * image.width + x) + 1]? = some p.unique_color.g ∧
            buf[3 * (y * image.width + x) + 2]? = some p.unique_color.b) ∧
        (label = 0 ∨ m2.info.provinces.length < label →
          ∀ k, k < 3 →
            buf[3 * (y * image.width + x) + k]? =
              (freshBuffer m2.fs (3 * image.width * image.height))[3 * (y * image.width + x) + k]?) := by
  obtain ⟨m1, h1, h2⟩ := andThen_eq_true _ _ _ hfiles
  have himage2 : m2.info.image = some image := by
    rw [(loadShapeLabels_frame m1 m2 true h2).2.1, (loadProvinceData_frame fmt _ m1 true h1).2.1]
  obtain ⟨buf, log, hfold, hlen, hget⟩ :=
    rebuild_fold image.width image.height lm m2.info.provinces hsz hcover
      (pixelOrder image.width image.height)
      (fun p hp => (mem_pixelOrder image.width image.height p.1 p.2).mp hp)
      (pixelOrder_nodup image.width image.height)
      (freshBuffer m2.fs (3 * image.width * image.height)) m2.log (freshBuffer_length _ _)
  refine ⟨{ m2 with info := { m2.info with graphics_data := some buf }, log := log }, buf,
    ?_, rfl, hlen, rfl, hlm, fun x y label hx hy hl => ⟨fun hvalid => ?_, fun hskip k hk => ?_⟩⟩
  · simp only [load, hroot, if_true, himg, hfiles, rebuildGraphics, himage2, hlm,
      data_size_eq image.width image.height hsz, hfold]
  · have hin : label - 1 < m2.info.provinces.length := by omega
    have hcolor : labelColor m2.info.provinces label =
        some (m2.info.provinces[label - 1]).unique_color := by
      have hnot : ¬ (label = 0 ∨ label > m2.info.provinces.length) := by omega
      simp [labelColor, hnot, List.getElem?_eq_getElem hin]
    have hmem := (mem_pixelOrder image.width image.height x y).mpr ⟨hx, hy⟩
    refine ⟨m2.info.provinces[label - 1], List.getElem?_eq_getElem hin, ?_, ?_, ?_⟩
    · have := hget x y label 0 hx hy hl (by decide)
      simpa [hcolor, hmem, Color.channel] using this
    · have := hget x y label 1 hx hy hl (by decide)
      simpa [hcolor, hmem, Color.channel] using this
    · have := hget x y label 2 hx hy hl (by decide)
      simpa [hcolor, hmem, Color.channel] using this
  · have hcolor : labelColor m2.info.provinces label = none := by
      have hyes : label = 0 ∨ label > m2.info.provinces.length := by omega
      simp [labelColor, hyes]
    have := hget x y label k hx hy hl hk
    simpa [hcolor] using this

/-- C6 at an image of two by one pixels with labels 1 and 5 and one province. -/
theorem load_rebuilds_graphics_witness :
    ∃ m3 buf,
      load csvFormat (projectMachine { width := 2, height := 1 } twoPixelLabelFile oneProvinceFile)
        = Outcome.returned (true, m3) ∧
      m3.info.graphics_data = some buf ∧ buf.length = 3 * 2 * 1 ∧
      m3.info.provinces = twoPixelLoaded.info.provinces ∧ m3.info.label_matrix = some [1, 5] ∧
      ∀ x y label, x < 2 → y < 1 → [1, 5][y * 2 + x]? = some label →
        (1 ≤ label ∧ label ≤ twoPixelLoaded.info.provinces.length →
          ∃ p, twoPixelLoaded.info.provinces[label - 1]? = some p ∧
            buf[3 * (y * 2 + x)]? = some p.unique_color.r ∧
            buf[3 * (y * 2 + x) + 1]? = some p.unique_color.g ∧
            buf[3 * (y * 2 + x) + 2]? = some p.unique_color.b) ∧
        (label = 0 ∨ twoPixelLoaded.info.provinces.length < label →
          ∀ k, k < 3 →
            buf[3 * (y * 2 + x) + k]? =
              (freshBuffer twoPixelLoaded.fs (3 * 2 * 1))[3 * (y * 2 + x) + k]?) :=
  load_rebuilds_graphics csvFormat
    (projectMachine { width := 2, height := 1 } twoPixelLabelFile oneProvinceFile) twoPixelLoaded
    { width := 2, height := 1 } [1, 5] rfl rfl (by decide) rfl (by decide) (by decide)

/-! ### Round trip -/

theorem u32OfBytes_u32Bytes (n : Nat) (h : n < 4294967296) : u32OfBytes (u32Bytes n) = n := by
  simp only [u32OfBytes, u32Bytes, List.getD_cons_zero, List.getD_cons_succ]
  omega

theorem labelsOfBytes_labelsToBytes (lm : List Nat) (hlabels : ∀ l ∈ lm, l < 4294967296) :
    labelsOfBytes lm.length (labelsToBytes lm) = lm := by
  induction lm with
  | nil => rfl
  | cons l ls ih =>
    have hl := hlabels l (List.mem_cons_self _ _)
    have hls : ∀ a ∈ ls, a < 4294967296 := fun a ha => hlabels a (List.mem_cons_of_mem _ ha)
    have htake : (labelsToBytes (l :: ls)).take 4 = u32Bytes l := by
      simp [labelsToBytes, u32Bytes]
    have hdrop : (labelsToBytes (l :: ls)).drop 4 = labelsToBytes ls := by
      simp [labelsToBytes, u32Bytes]
    simp only [List.length_cons, labelsOfBytes, htake, hdrop, u32OfBytes_u32Bytes l hl, ih hls]

theorem getlines_line (line rest : List Char) (hline : Char.ofNat 10 ∉ line) :
    getlines (line ++ [Char.ofNat 10] ++ rest) = line :: getlines rest := by
  induction line with
  | nil => simp [getlines]
  | cons c cs ih =>
    have hc : c ≠ Char.ofNat 10 := fun h => hline (h ▸ List.mem_cons_self _ _)
    have hcs : Char.ofNat 10 ∉ cs := fun h => hline (List.mem_cons_of_mem _ h)
    have ih' := ih hcs
    simp only [List.cons_append, List.append_assoc, List.singleton_append] at ih' ⊢
    simp only [getlines, hc, if_false, ih']

theorem getlines_provinceLines (fmt : ProvinceFormat) (ps : List Province)
    (hps : ∀ p ∈ ps, Char.ofNat 10 ∉ fmt.write p) :
    getlines (provinceLines fmt ps) = ps.map fmt.write := by
  induction ps with
  | nil => rfl
  | cons p ps ih =>
    simp only [provinceLines, List.map_cons]
    rw [getlines_line _ _ (hps p (List.mem_cons_self _ _)),
      ih (fun q hq => hps q (List.mem_cons_of_mem _ hq))]

theorem parsedProvinces_written (fmt : ProvinceFormat) (ps : List Province)
    (hps : ∀ p ∈ ps, fmt.parseValues (fmt.write p) = some p ∧ fmt.write p ≠ []) :
    parsedProvinces fmt (ps.map fmt.write) = ps := by
  induction ps with
  | nil => rfl
  | cons p ps ih =>
    obtain ⟨hparse, hne⟩ := hps p (List.mem_cons_self _ _)
    have hempty : (fmt.write p).isEmpty = false := by
      cases hw : fmt.write p with
      | nil => exact absurd hw hne
      | cons c cs => rfl
    simp only [List.map_cons, parsedProvinces, hempty, hparse, Bool.false_eq_true, if_false,
      ih (fun q hq => hps q (List.mem_cons_of_mem _ hq))]

/-- Reading back a province file that `saveProvinceData` wrote: every line
parses, and the province list is the one that was written. -/
theorem loadProvinceData_written (fmt : ProvinceFormat) (m : Machine) (ps : List Province)
    (hfile : m.fs.provincedata = some (provinceLines fmt ps))
    (hopen : m.fs.provincedata_readable = true)
    (hps : ∀ p ∈ ps, fmt.parseValues (fmt.write p) = some p ∧ fmt.write p ≠ [] ∧
      Char.ofNat 10 ∉ fmt.write p) :
    ∃ m', loadProvinceData fmt m = Outcome.returned (true, m') ∧ m'.info.provinces = ps := by
  have hlines := getlines_provinceLines fmt ps (fun p hp => (hps p hp).2.2)
  have hpre : ∀ l ∈ ps.map fmt.write, l = [] ∨ (fmt.parseValues l).isSome = true := by
    intro l hl
    obtain ⟨p, hp, rfl⟩ := List.mem_map.mp hl
    right
    rw [(hps p hp).1]
    rfl
  have hloop := loadProvinceLoop_append fmt (ps.map fmt.write) [] hpre 1
    ({ m with ec := ErrorCode.cleared, info := { m.info with provinces := [] } } : Machine)
    (by decide)
  rw [List.append_nil, parsedProvinces_written fmt ps (fun p hp => ⟨(hps p hp).1, (hps p hp).2.1⟩)]
    at hloop
  unfold loadProvinceData
  simp only [hfile, hopen, if_true, hlines, hloop, loadProvinceLoop]
  exact ⟨_, rfl, by simp [Machine.say, Machine.addProvinces]⟩

/-- Reading back a label file that `saveShapeLabels` wrote for an image whose
pixel count is below `2^32`: the label matrix is the one that was written. -/
theorem loadShapeLabels_written (magic : List Nat) (m : Machine) (image : BitMap) (lm : List Nat)
    (hmagic : magic.length = 4)
    (hw : image.width < 4294967296) (hh : image.height < 4294967296)
    (hdim : image.width * image.height < 4294967296)
    (hlen : lm.length = image.width * image.height)
    (hlabels : ∀ l ∈ lm, l < 4294967296)
    (hfile : m.fs.shapedata =
      some (magic ++ u32Bytes image.width ++ u32Bytes image.height ++ labelsToBytes lm ++ [0]))
    (hopen : m.fs.shapedata_readable = true) :
    loadShapeLabels m =
      Outcome.returned
        (true,
          { m with
            info := { m.info with
              label_matrix := some lm, label_matrix_size := image.width * image.height } }) := by
  obtain ⟨a, b, c, d, rfl⟩ : ∃ a b c d, magic = [a, b, c, d] := by
    match magic, hmagic with
    | [a, b, c, d], _ => exact ⟨a, b, c, d, rfl⟩
  have hwidth : declaredWidth ([a, b, c, d] ++ u32Bytes image.width ++ u32Bytes image.height ++
      labelsToBytes lm ++ [0]) = image.width := by
    have hraw : declaredWidth ([a, b, c, d] ++ u32Bytes image.width ++ u32Bytes image.height ++
        labelsToBytes lm ++ [0]) = u32OfBytes (u32Bytes image.width) := by
      simp [declaredWidth, u32Bytes]
    rw [hraw, u32OfBytes_u32Bytes image.width hw]
  have hheight : declaredHeight ([a, b, c, d] ++ u32Bytes image.width ++ u32Bytes image.height ++
      labelsToBytes lm ++ [0]) = image.height := by
    have hraw : declaredHeight ([a, b, c, d] ++ u32Bytes image.width ++ u32Bytes image.height ++
        labelsToBytes lm ++ [0]) = u32OfBytes (u32Bytes image.height) := by
      simp [declaredHeight, u32Bytes]
    rw [hraw, u32OfBytes_u32Bytes image.height hh]
  have hu : u32 (image.width * image.height) = image.width * image.height :=
    Nat.mod_eq_of_lt hdim
  have hdata : (([a, b, c, d] ++ u32Bytes image.width ++ u32Bytes image.height ++
      labelsToBytes lm ++ [0]).drop 12).take (image.width * image.height * 4)
        = labelsToBytes lm := by
    have : ([a, b, c, d] ++ u32Bytes image.width ++ u32Bytes image.height ++
        labelsToBytes lm ++ [0]).drop 12 = labelsToBytes lm ++ [0] := by
      simp [u32Bytes]
    rw [this, List.take_append_of_le_length (by rw [labelsToBytes_length]; omega),
      List.take_of_length_le (by rw [labelsToBytes_length]; omega)]
  have hlong1 : ¬ ([a, b, c, d] ++ u32Bytes image.width ++ u32Bytes image.height ++
      labelsToBytes lm ++ [0]).length < 12 := by
    simp only [List.length_append, List.length_cons, List.length_nil, u32Bytes_length]
    omega
  have hlong2 : ¬ ([a, b, c, d] ++ u32Bytes image.width ++ u32Bytes image.height ++
      labelsToBytes lm ++ [0]).length < 12 + 4 * (image.width * image.height) := by
    simp only [List.length_append, List.length_cons, List.length_nil, u32Bytes_length,
      labelsToBytes_length, hlen]
    omega
  rw [loadShapeLabels_eq m _ hfile hopen, hwidth, hheight, hu]
  simp only [hlong1, hlong2, if_false, hdata]
  rw [← hlen, labelsOfBytes_labelsToBytes lm hlabels]

/-- The rebuild of the graphics data returns true and touches neither the
province list nor the label matrix, when the label matrix covers the image and
`3 * width * height` is below `2^32`. -/
theorem rebuildGraphics_returns (m : Machine) (image : BitMap) (lm : List Nat)
    (himage : m.info.image = some image) (hlm : m.info.label_matrix = some lm)
    (hcover : image.width * image.height ≤ lm.length)
    (hsz : 3 * image.width * image.height < 4294967296) :
    ∃ m', rebuildGraphics m = Outcome.returned (true, m') ∧
      m'.info.provinces = m.info.provinces ∧ m'.info.label_matrix = m.info.label_matrix ∧
      m'.info.label_matrix_size = m.info.label_matrix_size := by
  obtain ⟨buf, log, hfold, -, -⟩ :=
    rebuild_fold image.width image.height lm m.info.provinces hsz hcover
      (pixelOrder image.width image.height)
      (fun p hp => (mem_pixelOrder image.width image.height p.1 p.2).mp hp)
      (pixelOrder_nodup image.width image.height)
      (freshBuffer m.fs (3 * image.width * image.height)) m.log (freshBuffer_length _ _)
  refine ⟨{ m with info := { m.info with graphics_data := some buf }, log := log }, ?_,
    rfl, rfl, rfl⟩
  simp only [rebuildGraphics, himage, hlm, data_size_eq image.width image.height hsz, hfold]

/-- What `save` leaves behind for a state with at least one province, an image
and a label matrix of `width * height` entries, when the directory is there or
can be created and both files open for writing. -/
theorem save_writes_both (magic : List Nat) (fmt : ProvinceFormat) (m : Machine)
    (image : BitMap) (lm : List Nat)
    (himg : m.info.image = some image) (hlm : m.info.label_matrix = some lm)
    (hsize : m.info.label_matrix_size = image.width * image.height)
    (hlen : lm.length = image.width * image.height)
    (hprov : m.info.provinces ≠ [])
    (hdir : m.fs.root_exists = true ∨ m.fs.root_creatable = true)
    (hw1 : m.fs.shapedata_writable = true) (hw2 : m.fs.provincedata_writable = true) :
    ∃ m1, save magic fmt m = Outcome.returned (true, m1) ∧ m1.info = m.info ∧ m1.ec = m.ec ∧
      m1.fs =
        { m.fs with
          root_exists := true
          shapedata := some (magic ++ u32Bytes image.width ++ u32Bytes image.height ++
            labelsToBytes lm ++ [0])
          provincedata := some (provinceLines fmt m.info.provinces) } := by
  have htake : lm.take (image.width * image.height) = lm := by
    rw [← hlen]; exact List.take_length lm
  have hne : m.info.provinces.isEmpty = false := by
    cases hp : m.info.provinces with
    | nil => exact absurd hp hprov
    | cons p ps => rfl
  by_cases hroot : m.fs.root_exists = true
  · refine ⟨{ m with fs := { m.fs with
        root_exists := true
        shapedata := some (magic ++ u32Bytes image.width ++ u32Bytes image.height ++
          labelsToBytes lm ++ [0])
        provincedata := some (provinceLines fmt m.info.provinces) } }, ?_, rfl, rfl, rfl⟩
    simp [save, hroot, hne, saveShapeLabels, saveProvinceData, andThen, hw1, hw2, himg, hlm,
      hsize, hlen, htake]
  · have hcreate : m.fs.root_creatable = true := by
      rcases hdir with h | h
      · exact absurd h hroot
      · exact h
    refine ⟨{ m with
        fs := { m.fs with
          root_exists := true
          shapedata := some (magic ++ u32Bytes image.width ++ u32Bytes image.height ++
            labelsToBytes lm ++ [0])
          provincedata := some (provinceLines fmt m.info.provinces) }
        log := m.log ++ [LogMsg.creating_directory] }, ?_, rfl, rfl, rfl⟩
    simp [save, hroot, hcreate, hne, saveShapeLabels, saveProvinceData, andThen, hw1, hw2, himg,
      hlm, hsize, hlen, htake, Machine.say]

/-- C1 (as the code has it): take a state with an image of `width` by `height`
pixels (`3 * width * height` below `2^32`), a label matrix of `width * height`
entries and at least one province, each of which the line format writes as a
non-empty line without line feed that parses back to it; let the magic marker
have four bytes, the directory exist or be creatable, both files open for writing
and for reading, and the source image be the one of the state.  Then `save`
returns true, and `load` from that directory, on any project state, returns
true and yields the province list and the label matrix that were saved. -/
theorem save_load_round_trip (magic : List Nat) (fmt : ProvinceFormat) (m : Machine)
    (image : BitMap) (lm : List Nat)
    (hmagic : magic.length = 4)
    (himg : m.info.image = some image) (hlm : m.info.label_matrix = some lm)
    (hsize : m.info.label_matrix_size = image.width * image.height)
    (hlen : lm.length = image.width * image.height)
    (hlabels : ∀ l ∈ lm, l < 4294967296)
    (hw : image.width < 4294967296) (hh : image.height < 4294967296)
    (hsz : 3 * image.width * image.height < 4294967296)
    (hprov : m.info.provinces ≠ [])
    (hfmt : ∀ p ∈ m.info.provinces, fmt.parseValues (fmt.write p) = some p ∧ fmt.write p ≠ [] ∧
      Char.ofNat 10 ∉ fmt.write p)
    (hdir : m.fs.root_exists = true ∨ m.fs.root_creatable = true)
    (hw1 : m.fs.shapedata_writable = true) (hw2 : m.fs.provincedata_writable = true)
    (hr1 : m.fs.shapedata_readable = true) (hr2 : m.fs.provincedata_readable = true)
    (hsrc : m.fs.input_provincemap = some (some image)) :
    ∃ m1, save magic fmt m = Outcome.returned (true, m1) ∧
      ∀ m0 : Machine, m0.fs = m1.fs →
        ∃ m2, load fmt m0 = Outcome.returned (true, m2) ∧
          m2.info.provinces = m.info.provinces ∧ m2.info.label_matrix = some lm ∧
          m2.info.label_matrix_size = m.info.label_matrix_size := by
  obtain ⟨m1, hsave, -, -, hfs⟩ :=
    save_writes_both magic fmt m image lm himg hlm hsize hlen hprov hdir hw1 hw2
  refine ⟨m1, hsave, fun m0 hm0 => ?_⟩
  have hfs0 : m0.fs = { m.fs with
      root_exists := true
      shapedata := some (magic ++ u32Bytes image.width ++ u32Bytes image.height ++
        labelsToBytes lm ++ [0])
      provincedata := some (provinceLines fmt m.info.provinces) } := hm0.trans hfs
  have hdim : image.width * image.height < 4294967296 := by
    have h3 : 3 * image.width * image.height = 3 * (image.width * image.height) :=
      Nat.mul_assoc 3 _ _
    omega
  have hroot0 : m0.fs.root_exists = true := by rw [hfs0]
  have hsrc0 : m0.fs.input_provincemap = some (some image) := by rw [hfs0]; exact hsrc
  -- the province file
  obtain ⟨ma, hla, hpa⟩ := loadProvinceData_written fmt
    ({ m0 with info := { m0.info with image := some image } } : Machine) m.info.provinces
    (by show m0.fs.provincedata = _; rw [hfs0])
    (by show m0.fs.provincedata_readable = true; rw [hfs0]; exact hr2) hfmt
  obtain ⟨hfa, hia, -, -⟩ := loadProvinceData_frame fmt _ ma true hla
  -- the label file
  have hlb := loadShapeLabels_written magic ma image lm hmagic hw hh hdim hlen hlabels
    (by rw [hfa]; show m0.fs.shapedata = _; rw [hfs0])
    (by rw [hfa]; show m0.fs.shapedata_readable = true; rw [hfs0]; exact hr1)
  -- the graphics data
  obtain ⟨m2, hgr, hp2, hl2, hs2⟩ := rebuildGraphics_returns
    ({ ma with info := { ma.info with
        label_matrix := some lm, label_matrix_size := image.width * image.height } } : Machine)
    image lm hia rfl (by omega) hsz
  refine ⟨m2, ?_, hp2.trans hpa, hl2, hs2.trans hsize.symm⟩
  simp only [load, hroot0, if_true, hsrc0, hla, andThen, hlb]
  exact hgr

/-- C1 fails as stated: a state with a source image, a label matrix of
`width * height` entries and an empty province list is saved with result true
into an empty directory, nothing is written, and `load` from that directory
returns false. -/
theorem save_load_fails_without_provinces :
    ∃ m1, save exampleMagic csvFormat noProvincesMachine = Outcome.returned (true, m1) ∧
      m1.fs.shapedata = none ∧ m1.fs.provincedata = none ∧
      ∃ m2, load csvFormat m1 = Outcome.returned (false, m2) := by
  refine ⟨_, rfl, by decide, by decide, _, rfl⟩

/-- C1 at a state for an image of two by one pixels with two provinces, written in the line format of the spec. -/
theorem save_load_round_trip_witness :
    ∃ m1, save exampleMagic csvFormat exampleMachine = Outcome.returned (true, m1) ∧
      ∀ m0 : Machine, m0.fs = m1.fs →
        ∃ m2, load csvFormat m0 = Outcome.returned (true, m2) ∧
          m2.info.provinces = exampleMachine.info.provinces ∧
          m2.info.label_matrix = some [2, 1] ∧
          m2.info.label_matrix_size = exampleMachine.info.label_matrix_size :=
  save_load_round_trip exampleMagic csvFormat exampleMachine { width := 2, height := 1 } [2, 1]
    rfl rfl rfl rfl rfl (by decide) (by decide) (by decide) (by decide) (by decide) (by decide)
    (Or.inl rfl) rfl rfl rfl rfl rfl

/-! ### The line format of the spec satisfies the round-trip law -/

theorem digitChar_toNat (d : Nat) (h : d < 10) : (Nat.digitChar d).toNat = 48 + d := by
  interval_cases d <;> rfl

/-- The digits `toDigitsCore` puts in front of what it was given: at least one,
digits only, and read back they add the number to the shifted accumulator. -/
theorem toDigitsCore_spec (fuel n : Nat) (h : n < fuel) :
    ∃ pre : List Char, pre ≠ [] ∧ (∀ c ∈ pre, 48 ≤ c.toNat ∧ c.toNat ≤ 57) ∧
      (∀ ds, Nat.toDigitsCore 10 fuel n ds = pre ++ ds) ∧
      ∀ acc rest,
        parseDecimalFrom acc (pre ++ rest) = parseDecimalFrom (acc * 10 ^ pre.length + n) rest := by
  induction fuel generalizing n with
  | zero => omega
  | succ fuel ih =>
    have hd : (Nat.digitChar (n % 10)).toNat = 48 + n % 10 :=
      digitChar_toNat _ (Nat.mod_lt _ (by decide))
    by_cases hsmall : n / 10 = 0
    · refine ⟨[Nat.digitChar (n % 10)], by simp, ?_, ?_, ?_⟩
      · intro c hc
        simp only [List.mem_singleton] at hc
        subst hc
        omega
      · intro ds
        simp [Nat.toDigitsCore, hsmall]
      · intro acc rest
        have hrange : 48 ≤ 48 + n % 10 ∧ 48 + n % 10 ≤ 57 := by omega
        simp only [List.singleton_append, parseDecimalFrom, hd, hrange, and_self, if_true,
          List.length_singleton, pow_one]
        congr 1
        omega
    · obtain ⟨pre, hne, hdig, hcore, hparse⟩ := ih (n / 10) (by omega)
      refine ⟨pre ++ [Nat.digitChar (n % 10)], by simp, ?_, ?_, ?_⟩
      · intro c hc
        rcases List.mem_append.mp hc with hc | hc
        · exact hdig c hc
        · simp only [List.mem_singleton] at hc
          subst hc
          omega
      · intro ds
        simp [Nat.toDigitsCore, hsmall, hcore]
      · intro acc rest
        have hrange : 48 ≤ 48 + n % 10 ∧ 48 + n % 10 ≤ 57 := by omega
        rw [List.append_assoc, hparse acc _]
        simp only [List.singleton_append, parseDecimalFrom, hd, hrange, and_self, if_true,
          List.length_append, List.length_singleton, pow_succ]
        congr 1
        have e : acc * (10 ^ pre.length * 10) = (acc * 10 ^ pre.length) * 10 := by ring
        rw [e]
        omega


theorem decimal_spec (n : Nat) :
    decimal n ≠ [] ∧ (∀ c ∈ decimal n, 48 ≤ c.toNat ∧ c.toNat ≤ 57) ∧
      parseDecimal (decimal n) = some n := by
  obtain ⟨pre, hne, hdig, hcore, hparse⟩ := toDigitsCore_spec (n + 1) n (by omega)
  have hdec : decimal n = pre := by
    simp [decimal, Nat.toDigits, hcore]
  rw [hdec]
  refine ⟨hne, hdig, ?_⟩
  have hempty : pre.isEmpty = false := by
    cases pre with
    | nil => exact absurd rfl hne
    | cons c cs => rfl
  have := hparse 0 []
  simp only [List.append_nil, Nat.zero_mul, Nat.zero_add, parseDecimalFrom] at this
  simp [parseDecimal, hempty, this]

theorem decimal_not_mem (n : Nat) (c : Char) (hc : ¬ (48 ≤ c.toNat ∧ c.toNat ≤ 57)) :
    c ∉ decimal n :=
  fun h => hc ((decimal_spec n).2.1 c h)

theorem splitFields_last (sep : Char) (f : List Char) (hf : sep ∉ f) :
    splitFields sep f = [f] := by
  induction f with
  | nil => rfl
  | cons c cs ih =>
    have hc : c ≠ sep := fun h => hf (h ▸ List.mem_cons_self _ _)
    have hcs : sep ∉ cs := fun h => hf (List.mem_cons_of_mem _ h)
    simp only [splitFields, hc, if_false, ih hcs]

theorem splitFields_field (sep : Char) (f rest : List Char) (hf : sep ∉ f) :
    splitFields sep (f ++ sep :: rest) = f :: splitFields sep rest := by
  induction f with
  | nil => simp [splitFields]
  | cons c cs ih =>
    have hc : c ≠ sep := fun h => hf (h ▸ List.mem_cons_self _ _)
    have hcs : sep ∉ cs := fun h => hf (List.mem_cons_of_mem _ h)
    simp only [List.cons_append, splitFields, hc, if_false, List.append_eq, ih hcs]

theorem decimal_ne_unknown (v : Nat) : decimal v ≠ "UNKNOWN".toList := by
  intro h
  have hmem : Char.ofNat 85 ∈ decimal v := by rw [h]; decide
  exact decimal_not_mem v _ (by decide) hmem

theorem provinceTypeToken_spec (t : ProvinceType) :
    (';' : Char) ∉ provinceTypeToken t ∧ Char.ofNat 10 ∉ provinceTypeToken t ∧
      parseProvinceType (provinceTypeToken t) = some t := by
  cases t with
  | UNKNOWN => exact ⟨by decide, by decide, by decide⟩
  | other v =>
    refine ⟨decimal_not_mem v _ (by decide), decimal_not_mem v _ (by decide), ?_⟩
    simp only [provinceTypeToken, parseProvinceType, decimal_ne_unknown v, if_false,
      (decimal_spec v).2.2, Option.map_some']

theorem terrainToken_spec (t : Terrain) :
    (';' : Char) ∉ terrainToken t ∧ Char.ofNat 10 ∉ terrainToken t ∧
      parseTerrain (terrainToken t) = some t := by
  cases t with
  | UNKNOWN => exact ⟨by decide, by decide, by decide⟩
  | other v =>
    refine ⟨decimal_not_mem v _ (by decide), decimal_not_mem v _ (by decide), ?_⟩
    simp only [terrainToken, parseTerrain, decimal_ne_unknown v, if_false,
      (decimal_spec v).2.2, Option.map_some']

theorem parseChannel_decimal (v : Nat) (h : v ≤ 255) : parseChannel (decimal v) = some v := by
  simp [parseChannel, (decimal_spec v).2.2, h]

theorem not_mem_append_separator (c : Char) (a b : List Char) (ha : c ∉ a) (hc : c ≠ ';')
    (hb : c ∉ b) : c ∉ a ++ [';'] ++ b := by
  intro h
  rcases List.mem_append.mp h with h1 | h1
  · rcases List.mem_append.mp h1 with h2 | h2
    · exact ha h2
    · exact hc (List.mem_singleton.mp h2)
  · exact hb h1

theorem flagToken_spec (b : Bool) :
    (';' : Char) ∉ (if b then "true".toList else "false".toList) ∧
      Char.ofNat 10 ∉ (if b then "true".toList else "false".toList) ∧
      parseFlag (if b then "true".toList else "false".toList) = some b := by
  cases b <;> exact ⟨by decide, by decide, by decide⟩

theorem csvParse_csvWrite (p : Province) (hr : p.unique_color.r ≤ 255)
    (hg : p.unique_color.g ≤ 255) (hb : p.unique_color.b ≤ 255) :
    csvParse (csvWrite p) = some p := by
  have hsemi : ∀ n, (';' : Char) ∉ decimal n := fun n => decimal_not_mem n _ (by decide)
  obtain ⟨hty1, -, hty3⟩ := provinceTypeToken_spec p.type
  obtain ⟨hte1, -, hte3⟩ := terrainToken_spec p.terrain
  obtain ⟨hflag1, -, hflag3⟩ := flagToken_spec p.coastal
  unfold csvParse csvWrite
  simp only [List.append_assoc, List.singleton_append, List.cons_append, List.nil_append]
  rw [splitFields_field ';' (decimal p.id) _ (hsemi _)]
  rw [splitFields_field ';' (decimal p.unique_color.r) _ (hsemi _)]
  rw [splitFields_field ';' (decimal p.unique_color.g) _ (hsemi _)]
  rw [splitFields_field ';' (decimal p.unique_color.b) _ (hsemi _)]
  rw [splitFields_field ';' (provinceTypeToken p.type) _ hty1]
  rw [splitFields_field ';' _ _ hflag1]
  rw [splitFields_field ';' (terrainToken p.terrain) _ hte1]
  rw [splitFields_last ';' (decimal p.continent) (hsemi _)]
  simp only [(decimal_spec _).2.2, parseChannel_decimal _ hr, parseChannel_decimal _ hg,
    parseChannel_decimal _ hb, hty3, hflag3, hte3]


theorem csvWrite_ne_nil (p : Province) : csvWrite p ≠ [] := by
  intro h
  have hlen := congrArg List.length h
  have hpos : 0 < (decimal p.id).length := List.length_pos.mpr (decimal_spec p.id).1
  simp only [csvWrite, List.length_append, List.length_nil] at hlen
  omega

theorem csvWrite_no_line_feed (p : Province) : Char.ofNat 10 ∉ csvWrite p := by
  have hnl : ∀ n, Char.ofNat 10 ∉ decimal n := fun n => decimal_not_mem n _ (by decide)
  have hsep : Char.ofNat 10 ≠ ';' := by decide
  have h1 := not_mem_append_separator _ (decimal p.id) (decimal p.unique_color.r)
    (hnl _) hsep (hnl _)
  have h2 := not_mem_append_separator _ _ (decimal p.unique_color.g) h1 hsep (hnl _)
  have h3 := not_mem_append_separator _ _ (decimal p.unique_color.b) h2 hsep (hnl _)
  have h4 := not_mem_append_separator _ _ (provinceTypeToken p.type) h3 hsep
    (provinceTypeToken_spec p.type).2.1
  have h5 := not_mem_append_separator _ _ _ h4 hsep (flagToken_spec p.coastal).2.1
  have h6 := not_mem_append_separator _ _ (terrainToken p.terrain) h5 hsep
    (terrainToken_spec p.terrain).2.1
  exact not_mem_append_separator _ _ (decimal p.continent) h6 hsep (hnl _)

/-- The line format of the spec reads back every province whose colour channels
are bytes: the line written for it is not empty, holds no line feed and parses
to the province. -/
theorem csvFormat_round_trip (p : Province) (hr : p.unique_color.r ≤ 255)
    (hg : p.unique_color.g ≤ 255) (hb : p.unique_color.b ≤ 255) :
    csvFormat.parseValues (csvFormat.write p) = some p ∧ csvFormat.write p ≠ [] ∧
      Char.ofNat 10 ∉ csvFormat.write p := by
  have hwrite : csvFormat.write = csvWrite := rfl
  have hparse : csvFormat.parseValues = csvParse := rfl
  rw [hwrite, hparse]
  exact ⟨csvParse_csvWrite p hr hg hb, csvWrite_ne_nil p, csvWrite_no_line_feed p⟩

/-! ### Save: failures -/

/-- With the project directory in place, a label file that cannot be opened for
writing makes `save` return false with the error code built from `errno`; the
province file is not touched. -/
theorem save_fails_on_label_file (magic : List Nat) (fmt : ProvinceFormat) (m : Machine)
    (hprov : m.info.provinces ≠ [])
    (hdir : m.fs.root_exists = true ∨ m.fs.root_creatable = true)
    (hw1 : m.fs.shapedata_writable = false) :
    ∃ m', save magic fmt m = Outcome.returned (false, m') ∧
      m'.ec = ErrorCode.generic m.fs.errno ∧ m'.fs.provincedata = m.fs.provincedata ∧
      m'.fs.shapedata = m.fs.shapedata := by
  have hne : m.info.provinces.isEmpty = false := by
    cases hp : m.info.provinces with
    | nil => exact absurd hp hprov
    | cons p ps => rfl
  by_cases hroot : m.fs.root_exists = true
  · refine ⟨({ m with ec := ErrorCode.generic m.fs.errno } : Machine).say
      LogMsg.open_failed_shapedata, ?_, rfl, rfl, rfl⟩
    simp [save, hroot, hne, saveShapeLabels, andThen, hw1]
  · have hcreate : m.fs.root_creatable = true := by
      rcases hdir with h | h
      · exact absurd h hroot
      · exact h
    refine ⟨({ (({ m with fs := { m.fs with root_exists := true } } : Machine).say
        LogMsg.creating_directory) with ec := ErrorCode.generic m.fs.errno } : Machine).say
      LogMsg.open_failed_shapedata, ?_, rfl, rfl, rfl⟩
    simp [save, hroot, hcreate, hne, saveShapeLabels, andThen, hw1, Machine.say]

/-- With the project directory in place and the label file written, a province
file that cannot be opened for writing makes `save` return false with the error
code built from `errno`. -/
theorem save_fails_on_province_file (magic : List Nat) (fmt : ProvinceFormat) (m : Machine)
    (image : BitMap) (lm : List Nat)
    (himg : m.info.image = some image) (hlm : m.info.label_matrix = some lm)
    (hsize : m.info.label_matrix_size = image.width * image.height)
    (hlen : lm.length = image.width * image.height)
    (hprov : m.info.provinces ≠ [])
    (hdir : m.fs.root_exists = true ∨ m.fs.root_creatable = true)
    (hw1 : m.fs.shapedata_writable = true) (hw2 : m.fs.provincedata_writable = false) :
    ∃ m', save magic fmt m = Outcome.returned (false, m') ∧
      m'.ec = ErrorCode.generic m.fs.errno ∧ m'.fs.provincedata = m.fs.provincedata := by
  have htake : lm.take (image.width * image.height) = lm := by
    rw [← hlen]; exact List.take_length lm
  have hne : m.info.provinces.isEmpty = false := by
    cases hp : m.info.provinces with
    | nil => exact absurd hp hprov
    | cons p ps => rfl
  by_cases hroot : m.fs.root_exists = true
  · refine ⟨({ m with
        fs := { m.fs with
          shapedata := some (magic ++ u32Bytes image.width ++ u32Bytes image.height ++
            labelsToBytes lm ++ [0]) }
        ec := ErrorCode.generic m.fs.errno } : Machine).say LogMsg.open_failed_provincedata,
      ?_, rfl, rfl⟩
    simp [save, hroot, hne, saveShapeLabels, saveProvinceData, andThen, hw1, hw2, himg, hlm,
      hsize, hlen, htake, Machine.say]
  · have hcreate : m.fs.root_creatable = true := by
      rcases hdir with h | h
      · exact absurd h hroot
      · exact h
    refine ⟨({ m with
        fs := { m.fs with
          root_exists := true
          shapedata := some (magic ++ u32Bytes image.width ++ u32Bytes image.height ++
            labelsToBytes lm ++ [0]) }
        ec := ErrorCode.generic m.fs.errno
        log := m.log ++ [LogMsg.creating_directory] } : Machine).say
          LogMsg.open_failed_provincedata,
      ?_, rfl, rfl⟩
    simp [save, hroot, hcreate, hne, saveShapeLabels, saveProvinceData, andThen, hw1, hw2, himg,
      hlm, hsize, hlen, htake, Machine.say]

/-- C11, the run at the failing input: the state holds two provinces, the project
directory is missing and cannot be created.  `save` leaves by the exception of
`std::filesystem::create_directory`; it does not return false and the error code
is never assigned. -/
theorem save_throws_without_directory :
    uncreatableMachine.info.provinces ≠ [] ∧
      save exampleMagic csvFormat uncreatableMachine = Outcome.threw ∧
      ¬ ∃ m', save exampleMagic csvFormat uncreatableMachine = Outcome.returned (false, m') := by
  refine ⟨by decide, rfl, ?_⟩
  rintro ⟨m', h⟩
  have h2 : save exampleMagic csvFormat uncreatableMachine = Outcome.threw := rfl
  rw [h2] at h
  exact Outcome.noConfusion h

/-! ### Load: missing source image -/

/-- C12: when the project directory exists and the source image is absent from
the inputs root, `load` returns false with error code
`no_such_file_or_directory`, and neither the project state (province list, label
matrix, image, graphics data) nor any file has changed: the two files of the
directory were not read. -/
theorem load_without_source_image (fmt : ProvinceFormat) (m : Machine)
    (hroot : m.fs.root_exists = true) (himg : m.fs.input_provincemap = none) :
    ∃ m', load fmt m = Outcome.returned (false, m') ∧
      m'.ec = ErrorCode.no_such_file_or_directory ∧ m'.info = m.info ∧
      m'.info.provinces = m.info.provinces ∧ m'.info.label_matrix = m.info.label_matrix ∧
      m'.fs = m.fs ∧ m'.log = m.log ++ [LogMsg.source_image_missing] := by
  refine ⟨({ m with ec := ErrorCode.no_such_file_or_directory } : Machine).say
    LogMsg.source_image_missing, ?_, rfl, rfl, rfl, rfl, rfl, rfl⟩
  simp only [load, hroot, if_true, himg]

/-- C12 at a machine that holds two provinces and whose directory holds both
files. -/
theorem load_without_source_image_witness :
    ∃ m', load csvFormat noSourceImageMachine = Outcome.returned (false, m') ∧
      m'.ec = ErrorCode.no_such_file_or_directory ∧ m'.info = noSourceImageMachine.info ∧
      m'.info.provinces = noSourceImageMachine.info.provinces ∧
      m'.info.label_matrix = noSourceImageMachine.info.label_matrix ∧
      m'.fs = noSourceImageMachine.fs ∧
      m'.log = noSourceImageMachine.log ++ [LogMsg.source_image_missing] :=
  load_without_source_image csvFormat noSourceImageMachine rfl rfl

/-! ### Load: the two indices of a pixel -/

/-- C13: for `x < width`, `y < height` and `3 * width * height < 2^32`, the
graphics index `xyToIndex(width * 3, x * 3, y)` that `load` computes is three
times the label index `xyToIndex(width, x, y)`, which is `y * width + x`; the
buffer size `width * height * 3` is computed without wrap, the bytes `gindex`,
`gindex + 1`, `gindex + 2` (the last two sums also taken in 32 bits) lie below
it, and no byte of the triple belongs to the triple of another pixel of the
image. -/
theorem load_indices_consistent (w h x y : Nat) (hx : x < w) (hy : y < h)
    (hsz : 3 * w * h < 4294967296) :
    xyToIndex w x y = y * w + x ∧
      xyToIndex (u32 (w * 3)) (u32 (x * 3)) y = 3 * xyToIndex w x y ∧
      u32 (u32 (w * h) * 3) = w * h * 3 ∧
      u32 (xyToIndex (u32 (w * 3)) (u32 (x * 3)) y + 1)
        = xyToIndex (u32 (w * 3)) (u32 (x * 3)) y + 1 ∧
      u32 (xyToIndex (u32 (w * 3)) (u32 (x * 3)) y + 2)
        = xyToIndex (u32 (w * 3)) (u32 (x * 3)) y + 2 ∧
      xyToIndex (u32 (w * 3)) (u32 (x * 3)) y + 2 < u32 (u32 (w * h) * 3) ∧
      ∀ x' y' k k', x' < w → y' < h → (x', y') ≠ (x, y) → k < 3 → k' < 3 →
        xyToIndex (u32 (w * 3)) (u32 (x * 3)) y + k ≠
          xyToIndex (u32 (w * 3)) (u32 (x' * 3)) y' + k' := by
  have hidx := pixel_index_lt w h x y hx hy
  have hsz' : 3 * (w * h) < 4294967296 := by rw [← Nat.mul_assoc]; exact hsz
  have h3 : 3 * w * h = 3 * (w * h) := Nat.mul_assoc 3 w h
  have hl := xyToIndex_label w h x y hsz hx hy
  have hg := xyToIndex_graphics w h x y hsz hx hy
  have hd := data_size_eq w h hsz
  refine ⟨hl, by rw [hg, hl], by rw [hd]; ring, ?_, ?_, ?_, ?_⟩
  · rw [hg]; exact Nat.mod_eq_of_lt (by omega)
  · rw [hg]; exact Nat.mod_eq_of_lt (by omega)
  · rw [hg, hd]; omega
  · intro x' y' k k' hx' hy' hne hk hk'
    rw [hg, xyToIndex_graphics w h x' y' hsz hx' hy']
    intro heq
    have hsame : y' * w + x' = y * w + x := by omega
    obtain ⟨h1, h2⟩ := pixel_index_inj w x' y' x y hx' hx hsame
    exact hne (by rw [h1, h2])

/-- C13 at the second pixel of an image of two by one pixels. -/
theorem load_indices_consistent_witness :
    xyToIndex 2 1 0 = 0 * 2 + 1 ∧
      xyToIndex (u32 (2 * 3)) (u32 (1 * 3)) 0 = 3 * xyToIndex 2 1 0 ∧
      u32 (u32 (2 * 1) * 3) = 2 * 1 * 3 ∧
      u32 (xyToIndex (u32 (2 * 3)) (u32 (1 * 3)) 0 + 1)
        = xyToIndex (u32 (2 * 3)) (u32 (1 * 3)) 0 + 1 ∧
      u32 (xyToIndex (u32 (2 * 3)) (u32 (1 * 3)) 0 + 2)
        = xyToIndex (u32 (2 * 3)) (u32 (1 * 3)) 0 + 2 ∧
      xyToIndex (u32 (2 * 3)) (u32 (1 * 3)) 0 + 2 < u32 (u32 (2 * 1) * 3) ∧
      ∀ x' y' k k', x' < 2 → y' < 1 → (x', y') ≠ (1, 0) → k < 3 → k' < 3 →
        xyToIndex (u32 (2 * 3)) (u32 (1 * 3)) 0 + k ≠
          xyToIndex (u32 (2 * 3)) (u32 (x' * 3)) y' + k' :=
  load_indices_consistent 2 1 1 0 (by decide) (by decide) (by decide)

/-! ### Province file: what a failed read leaves behind -/

theorem parsedProvinces_eq_filterMap (fmt : ProvinceFormat) (lines : List (List Char)) :
    parsedProvinces fmt lines =
      (lines.filter fun l => !l.isEmpty).filterMap fmt.parseValues := by
  induction lines with
  | nil => rfl
  | cons line rest ih =>
    by_cases hempty : line.isEmpty = true
    · simp [parsedProvinces, hempty, ih]
    · have hfalse : line.isEmpty = false := by simpa using hempty
      cases hp : fmt.parseValues line with
      | none => simp [parsedProvinces, hfalse, hp, ih, List.filterMap_cons]
      | some p => simp [parsedProvinces, hfalse, hp, ih, List.filterMap_cons]

/-- C14: when the province file exists and opens, and its lines are `pre`, then a
non-empty line `bad` that does not parse, then `post`, where every line of `pre`
is blank or parses, `loadProvinceData` returns false and the province list it
leaves is the list of the provinces the non-empty lines of `pre` parse to, in
file order, one for each such line; what the list held before the call is gone,
and nothing of `post` has entered it. -/
theorem loadProvinceData_keeps_parsed_lines (fmt : ProvinceFormat) (m : Machine)
    (content : List Char) (pre : List (List Char)) (bad : List Char) (post : List (List Char))
    (hfile : m.fs.provincedata = some content) (hopen : m.fs.provincedata_readable = true)
    (hlines : getlines content = pre ++ bad :: post)
    (hpre : ∀ l ∈ pre, l = [] ∨ (fmt.parseValues l).isSome = true)
    (hne : bad ≠ []) (hbad : fmt.parseValues bad = none) :
    ∃ m', loadProvinceData fmt m = Outcome.returned (false, m') ∧
      m'.info.provinces = (pre.filter fun l => !l.isEmpty).filterMap fmt.parseValues ∧
      m'.info.provinces.length = (pre.filter fun l => !l.isEmpty).length := by
  have hisEmpty : bad.isEmpty = false := by
    cases bad with
    | nil => exact absurd rfl hne
    | cons c cs => rfl
  have hcount : ((pre.filter fun l => !l.isEmpty).filterMap fmt.parseValues).length =
      (pre.filter fun l => !l.isEmpty).length := by
    clear hlines
    induction pre with
    | nil => rfl
    | cons line rest ih =>
      have hrest : ∀ l ∈ rest, l = [] ∨ (fmt.parseValues l).isSome = true :=
        fun l hl => hpre l (List.mem_cons_of_mem _ hl)
      rcases hpre line (List.mem_cons_self _ _) with h | h
      · subst h
        simpa using ih hrest
      · obtain ⟨p, hp⟩ := Option.isSome_iff_exists.mp h
        by_cases hempty : line.isEmpty = true
        · simpa [List.filter_cons, hempty] using ih hrest
        · have hfalse : line.isEmpty = false := by simpa using hempty
          simp [List.filter_cons, hfalse, List.filterMap_cons, hp, ih hrest]
  unfold loadProvinceData
  simp only [hfile, hopen, if_true, hlines]
  rw [loadProvinceLoop_append fmt pre (bad :: post) hpre 1 _ (by decide)]
  simp only [loadProvinceLoop, hisEmpty, hbad, Bool.false_eq_true, if_false]
  refine ⟨_, rfl, ?_, ?_⟩
  · simp [Machine.say, Machine.addProvinces, parsedProvinces_eq_filterMap]
  · rw [← hcount]
    simp [Machine.say, Machine.addProvinces, parsedProvinces_eq_filterMap]

/-- C14 at a machine that holds two provinces and reads a province file whose
third line lacks fields: the list is left with the one province of line 1. -/
theorem loadProvinceData_keeps_parsed_lines_witness :
    ∃ m', loadProvinceData csvFormat reloadMachine = Outcome.returned (false, m') ∧
      m'.info.provinces =
        (["0;10;20;30;UNKNOWN;false;UNKNOWN;1".toList, []].filter fun l => !l.isEmpty).filterMap
          csvFormat.parseValues ∧
      m'.info.provinces.length =
        (["0;10;20;30;UNKNOWN;false;UNKNOWN;1".toList, []].filter fun l => !l.isEmpty).length :=
  loadProvinceData_keeps_parsed_lines csvFormat reloadMachine badProvinceFile
    ["0;10;20;30;UNKNOWN;false;UNKNOWN;1".toList, []] "3;10;20".toList
    ["1;40;50;60;UNKNOWN;false;UNKNOWN;1".toList] rfl rfl (by decide) (by decide) (by decide)
    (by decide)

end MapNormalizer
